import Mathlib

/-!
Verification development for the gn-to-cmake / gn-to-podspec build-graph
translation scripts (`util/gn_to_cmake_script.py`, `util/gn_to_podspec_script.py`).

The Python sources are shallowly embedded as executable Lean definitions:
dictionaries become association lists, Python sets become duplicate-free lists
(canonical representatives of the unordered Python value), exceptions become an
explicit error type, and the two recursions that the source performs without
any depth bound (the dependency walk and the flatten absorption) take an
explicit fuel argument whose exhaustion models unbounded recursion
(`RecursionError`).
-/

/-- Runtime failures of the two scripts, by Python exception class.
`outOfFuel` is the modelling artifact standing for recursion that never
returns (Python would raise `RecursionError` at its recursion limit). -/
inductive Err where
  /-- Looking up a target id absent from `project.targets`
  (`logging.error` followed by a `KeyError`). -/
  | unknownTarget (id : String)
  /-- Dereferencing `cmake_type` when `cmake_target_types.get` returned `None`. -/
  | attributeError
  /-- Source `min()` over an empty generator in `find_first_of`, or `int("")`. -/
  | valueError
  /-- Source `'/' + None`, or `re.findall` applied to a non-string. -/
  | typeError
  /-- A failing `assert` statement. -/
  | assertionError
  /-- The free variable `project` in `collect_sub_cmake_target` (there is no
  global binding for it, so a non-empty `sub_cmake_target_and_link` raises). -/
  | nameError
  /-- Source `write_project` raising for a root whose type is not linkable. -/
  | notLinkable (id : String)
  /-- Source `SubspecTarget.__init__` raising for an id absent from the project. -/
  | illegalSubspec (id : String)
  /-- Source `get_flatten_deps` raising for a flatten dep that is not a subspec target. -/
  | illegalFlatten (dep self : String)
  /-- Indexing past the end of a `dependency` entry list. -/
  | indexError
  /-- Fuel exhaustion: models recursion that never terminates. -/
  | outOfFuel
deriving Repr, DecidableEq

/-- Decidable equality for `Except`, used to evaluate the model at concrete
inputs inside proofs. -/
instance exceptDecEq {ε α : Type} [DecidableEq ε] [DecidableEq α] :
    DecidableEq (Except ε α)
  | .ok a, .ok b =>
    if h : a = b then .isTrue (by rw [h]) else .isFalse (by intro hc; cases hc; exact h rfl)
  | .ok _, .error _ => .isFalse (fun hc => Except.noConfusion hc)
  | .error _, .ok _ => .isFalse (fun hc => Except.noConfusion hc)
  | .error e, .error f =>
    if h : e = f then .isTrue (by rw [h]) else .isFalse (by intro hc; cases hc; exact h rfl)

/-- Source `CMakeTargetType` from `gn_to_cmake_script.py`. -/
structure CMakeTargetType where
  command : String
  modifier : Option String
  property_modifier : Option String
  is_linkable : Bool
  is_dependency_barrier : Bool
deriving Repr, DecidableEq

/-- Source `CMakeTargetType.custom`. -/
def CMakeTargetType.custom : CMakeTargetType :=
  { command := "add_custom_target", modifier := some "SOURCES",
    property_modifier := none, is_linkable := false, is_dependency_barrier := false }

/-- The `cmake_target_types` dictionary; `none` models a key absent from it
(`cmake_target_types.get(self.gn_type, None)`). -/
def cmake_target_types : String → Option CMakeTargetType
  | "unknown" => some CMakeTargetType.custom
  | "group" => some CMakeTargetType.custom
  | "executable" => some ⟨"add_executable", none, some "RUNTIME", true, true⟩
  | "loadable_module" => some ⟨"add_library", some "MODULE", some "LIBRARY", true, true⟩
  | "shared_library" => some ⟨"add_library", some "SHARED", some "LIBRARY", true, true⟩
  | "static_library" => some ⟨"add_library", some "STATIC", some "ARCHIVE", true, false⟩
  | "source_set" => some ⟨"add_library", some "OBJECT", none, false, false⟩
  | "copy" => some CMakeTargetType.custom
  | "action" => some CMakeTargetType.custom
  | "action_foreach" => some CMakeTargetType.custom
  | "bundle_data" => some CMakeTargetType.custom
  | "create_bundle" => some CMakeTargetType.custom
  | _ => none

/-- Source `SCRIPT_TARGETS`. -/
def SCRIPT_TARGETS : List String := ["copy", "action", "action_foreach"]

/-- Source `dep_target.gn_type in SCRIPT_TARGETS` with `gn_type` possibly `None`. -/
def isScriptType : Option String → Bool
  | some s => s ∈ SCRIPT_TARGETS
  | none => false

/-! ## Character-list utilities mirroring the Python string operations -/

/-- Python `s.find(c)` restricted to the success case: index of the first
occurrence of `c`, `none` when absent (Python returns `-1`). -/
def charFind (c : Char) : List Char → Option Nat
  | [] => none
  | x :: xs => if x = c then some 0 else (charFind c xs).map (· + 1)

/-- Python `s.find(c, start)`: first occurrence at or after index `start`. -/
def charFindFrom (c : Char) (cs : List Char) (start : Nat) : Option Nat :=
  (charFind c (cs.drop start)).map (· + start)

/-- Source `find_first_of(self.gn_name, (':', '('))`: the minimum of the positions of
the separators that occur in the string; `none` models the `ValueError` that
`min()` raises over an empty generator. -/
def findFirstOf (cs : List Char) : Option Nat :=
  match charFind ':' cs, charFind '(' cs with
  | some i, some j => some (min i j)
  | some i, none => some i
  | none, some j => some j
  | none, none => none

/-- Python `str.split(sep)` for a single-character separator: no merging of
adjacent separators, and the empty string splits to `[""]`. -/
def splitChar (sep : Char) : List Char → List (List Char)
  | [] => [[]]
  | c :: cs =>
    let r := splitChar sep cs
    if c = sep then [] :: r
    else
      match r with
      | h :: t => (c :: h) :: t
      | [] => [[c]]

/-- Python `sep.join(parts)` for a single-character separator. -/
def joinSep (sep : Char) : List (List Char) → List Char
  | [] => []
  | [p] => p
  | p :: ps => p ++ sep :: joinSep sep ps

/-- Source `part[0] if part else ''` from `extract_initial_path`. -/
def firstCharOrEmpty : List Char → List Char
  | [] => []
  | c :: _ => [c]

/-- Source `extract_initial_path`: split the location on `/`, keep only the first
character of every segment (the final one included), and rejoin. -/
def extractInitialPath (cs : List Char) : List Char :=
  joinSep '/' ((splitChar '/' cs).map firstCharOrEmpty)

/-- The per-character `Escape` helper of `cmake_target_escape`: characters in
`[A-Za-z0-9_.+-]` survive, anything else becomes `__`. -/
def escapeChar (c : Char) : List Char :=
  if c.isAlpha ∨ c.isDigit ∨ c = '_' ∨ c = '.' ∨ c = '+' ∨ c = '-' then [c] else ['_', '_']

/-- Source `cmake_target_escape` on character lists. -/
def cmakeTargetEscapeL (cs : List Char) : List Char :=
  (cs.map escapeChar).flatten

/-- The splitting phase of `get_cmake_target_name` (lines up to the `assert`):
produces the `location`, optional `name` and optional `toolchain` pieces.
`name = none` models the Python variable staying `None`. -/
def parseGnName (cs : List Char) : Except Err (List Char × Option (List Char) × Option (List Char)) :=
  match findFirstOf cs with
  | none => .error .valueError
  | some sep =>
    if sep = 0 then .ok (cs.drop 2, none, none)
    else
      let location := (cs.take sep).drop 2
      match charFindFrom '(' cs sep with
      | none => .ok (location, some (cs.drop (sep + 1)), none)
      | some ts =>
        let name? := if sep < ts then some ((cs.take ts).drop (sep + 1)) else none
        if cs.getLast? = some ')' then
          .ok (location, name?, some ((cs.drop (ts + 1)).dropLast))
        else .error .assertionError

/-- The assembling phase of `get_cmake_target_name` (from `assert location or
name` to the final escape). A `none` name hits `'/' + None` (`TypeError`). -/
def assembleCmakeName (location0 : List Char) (name? : Option (List Char))
    (toolchain? : Option (List Char)) : Except Err (List Char) :=
  if location0 = [] ∧ name?.getD [] = [] then .error .assertionError
  else
    let location := if location0 ≠ [] then extractInitialPath location0 else location0
    match name? with
    | none => .error .typeError
    | some name =>
      let base :=
        if ('/' :: name).isSuffixOf location then location
        else if location ≠ [] then location ++ '_' :: name
        else name
      let full :=
        match toolchain? with
        | some tc => if tc ≠ [] then base ++ '-' :: '-' :: tc else base
        | none => base
      .ok (cmakeTargetEscapeL full)

/-- Source `Target.get_cmake_target_name`. -/
def getCmakeTargetName (s : String) : Except Err String := do
  let (location, name?, toolchain?) ← parseGnName s.toList
  let r ← assembleCmakeName location name? toolchain?
  pure (String.mk r)

/-- Python `s.startswith(pre)` (structural, kernel-computable). -/
def pyStartsWith (s pre : String) : Bool :=
  pre.toList.isPrefixOf s.toList

/-- Python `s.endswith(suffix)` (structural, kernel-computable). -/
def pyEndsWith (s suffix : String) : Bool :=
  suffix.toList.isSuffixOf s.toList

/-- Left-to-right non-overlapping replacement, fuelled by the input length
(each step consumes at least one character when the pattern is non-empty). -/
def replaceAux (pat rep : List Char) : Nat → List Char → List Char
  | 0, s => s
  | _ + 1, [] => []
  | fuel + 1, c :: cs =>
    if pat.isPrefixOf (c :: cs) then rep ++ replaceAux pat rep fuel ((c :: cs).drop pat.length)
    else c :: replaceAux pat rep fuel cs

/-- Python `s.replace(pat, rep)` for a non-empty pattern (the sources only
replace non-empty patterns; Python's empty-pattern interleaving is not
modelled). -/
def pyReplace (s pat rep : String) : String :=
  if pat.toList = [] then s
  else String.mk (replaceAux pat.toList rep.toList s.toList.length s.toList)

/-- Compression as the spec describes it: the first character of every path
segment except the final one, which is kept whole.  (The source compresses
every segment, final included; this definition exists to compare the spec's
words with the code.) -/
def initialsExceptLast : List (List Char) → List (List Char)
  | [] => []
  | [p] => [p]
  | p :: ps => firstCharOrEmpty p :: initialsExceptLast ps

/-- Source `extract_initial_path` as the spec describes it (final segment whole). -/
def extractInitialPathSpec (cs : List Char) : List Char :=
  joinSep '/' (initialsExceptLast (splitChar '/' cs))

/-- The assembling phase with the spec's compression instead of the code's. -/
def assembleCmakeNameSpec (location0 : List Char) (name? : Option (List Char))
    (toolchain? : Option (List Char)) : Except Err (List Char) :=
  if location0 = [] ∧ name?.getD [] = [] then .error .assertionError
  else
    let location := if location0 ≠ [] then extractInitialPathSpec location0 else location0
    match name? with
    | none => .error .typeError
    | some name =>
      let base :=
        if ('/' :: name).isSuffixOf location then location
        else if location ≠ [] then location ++ '_' :: name
        else name
      let full :=
        match toolchain? with
        | some tc => if tc ≠ [] then base ++ '-' :: '-' :: tc else base
        | none => base
      .ok (cmakeTargetEscapeL full)

/-- Source `deriveCmakeIdentifier` following the spec's words (spec section 4.2):
identical to `getCmakeTargetName` except that the final path segment of the
location is kept whole during compression.  Used to refute the spec's
description of the compression against the source. -/
def specDeriveCmakeIdentifier (s : String) : Except Err String := do
  let (location, name?, toolchain?) ← parseGnName s.toList
  let r ← assembleCmakeNameSpec location name? toolchain?
  pure (String.mk r)

/-- The identifier the amended claim predicts for a parsed id: compress every
segment of the location (final included), apply the `/name`-suffix /
underscore-join / bare-name rules, append `--toolchain` for a non-empty
toolchain, then escape. -/
def amendCombine (l n : List Char) (tc? : Option (List Char)) : List Char :=
  let loc := joinSep '/' ((splitChar '/' l).map firstCharOrEmpty)
  let base :=
    if ('/' :: n).isSuffixOf loc then loc
    else if loc ≠ [] then loc ++ '_' :: n
    else n
  let full :=
    match tc? with
    | some tc => if tc ≠ [] then base ++ '-' :: '-' :: tc else base
    | none => base
  cmakeTargetEscapeL full

/-! ## Graph store and target model (`gn_to_cmake_script.py`) -/

/-- One well-formed entry of the `find_and_link_packages` metadata list
`[package_name, search_paths, third_slot, module, ...]`.  The source indexes
slots 0, 1 and 2 unconditionally, so entries shorter than three slots would
raise `IndexError`; only well-formed entries are modelled. -/
structure PackageDecl where
  name : String
  searchPaths : List String
  third : String
  rest : List String
deriving Repr, DecidableEq

/-- The raw per-target record of `project.targets[id]`, restricted to the
attributes the resolver reads.  Purely textual carrier attributes that never
feed back into the resolution (flags, configs, outputs, script arguments,
`output_path`, `project_name`, ...) are elided. -/
structure RawTarget where
  type : Option String := none
  sources : List String := []
  deps : List String := []
  is_cmake_target : Bool := false
  is_only_sub_cmake : Bool := false
  find_and_link_packages : List PackageDecl := []
  sub_cmake_target : List String := []
  sub_cmake_target_and_link : List String := []
deriving Repr, DecidableEq

/-- The `Project` value: the target dictionary (as an association list with
first-match lookup, the model of a Python dict) plus `root_path`. -/
structure CMakeProject where
  targets : List (String × RawTarget)
  root_path : String
deriving Repr, DecidableEq

/-- Python dict lookup `project.targets[name]` (first matching key). -/
def lookupRaw (ts : List (String × RawTarget)) (name : String) : Option RawTarget :=
  (ts.find? (fun p => p.1 = name)).map (·.2)

/-- Source `Project.get_absolute_path`: a `//`-prefixed path is re-rooted at
`root_path` (keeping one slash). -/
def getAbsolutePath (pr : CMakeProject) (path : String) : String :=
  if pyStartsWith path "//" then pr.root_path ++ String.mk (path.toList.drop 1) else path

/-- Source `Project.instead_source_path_prefix` on the non-Windows branch (the
Windows branch additionally strips a leading slash). -/
def rewriteSourcePath (pr : CMakeProject) (path : String) : String :=
  pyReplace (getAbsolutePath pr path) pr.root_path "${ROOT_PATH}"

/-- Source `Project.instead_source_path_prefix_list`. -/
def rewriteSourcePathList (pr : CMakeProject) (paths : List String) : List String :=
  paths.map (rewriteSourcePath pr)

/-- Python `set.add` on the canonical list representation: append if new. -/
def setAdd (l : List String) (x : String) : List String :=
  if x ∈ l then l else l ++ [x]

/-- Python `list(set(a) | set(b))`: the union with set semantics.  The order
of the Python result is unspecified; the canonical representative keeps the
last occurrence of each element of `a ++ b`. -/
def pyListUnion (a b : List String) : List String :=
  (a ++ b).dedup

/-- Python dict insert-or-replace, keeping the original key position. -/
def dictInsertPkg (d : List (String × Bool × List String)) (k : String)
    (v : Bool × List String) : List (String × Bool × List String) :=
  if (d.find? (fun p => p.1 = k)).isSome then
    d.map (fun p => if p.1 = k then (k, v) else p)
  else d ++ [(k, v)]

/-- Python dict lookup on the package dictionary. -/
def pkgLookup (d : List (String × Bool × List String)) (k : String) :
    Option (Bool × List String) :=
  (d.find? (fun p => p.1 = k)).map (·.2)

/-- Source `Target.find_all_deps_packages`: parse this target's own
`find_and_link_packages` metadata into the `packages` dict and the `modules`
set.  `configd` is detected by the `cmake::configd` sentinel in the third
slot; when absent, the third slot is itself a module. -/
def findAllDepsPackages (pr : CMakeProject) (pkgs : List PackageDecl) :
    List (String × Bool × List String) × List String :=
  pkgs.foldl
    (fun acc p =>
      let searchPaths := rewriteSourcePathList pr p.searchPaths
      let configd := p.third = "cmake::configd"
      let newModules := if configd then p.rest else p.third :: p.rest
      (dictInsertPkg acc.1 p.name (configd, searchPaths),
       newModules.foldl setAdd acc.2))
    ([], [])

/-- The `Target` object as built by `Target.__init__`, restricted to the
attributes the resolver reads. -/
structure TargetM where
  gnName : String
  gnType : Option String
  deps : List String
  sources : List String
  isCmakeTarget : Bool
  isOnlySubCmake : Bool
  cmakeType : Option CMakeTargetType
  cmakeName : String
  depsPackages : List (String × Bool × List String)
  linkModules : List String
  subCmakeTarget : List String
deriving Repr, DecidableEq

/-- Builds the `Target` record from its raw dict entry and its computed cmake
name (the tail of `Target.__init__`). -/
def mkTargetOfRaw (pr : CMakeProject) (name : String) (raw : RawTarget)
    (cmakeName : String) : TargetM :=
  let pm := findAllDepsPackages pr raw.find_and_link_packages
  { gnName := name
    gnType := raw.type
    deps := raw.deps
    sources := raw.sources
    isCmakeTarget := raw.is_cmake_target
    isOnlySubCmake := raw.is_only_sub_cmake
    cmakeType := raw.type.bind cmake_target_types
    cmakeName := cmakeName
    depsPackages := pm.1
    linkModules := pm.2
    subCmakeTarget := raw.sub_cmake_target_and_link ++ raw.sub_cmake_target }

/-- Source `Target.__init__`: fails with `unknownTarget` when the id is absent
(`KeyError` on `project.targets[...]` right after the `logging.error`), then
computes the cmake name (which can itself raise), and raises `NameError` when
`sub_cmake_target_and_link` is non-empty because `collect_sub_cmake_target`
references an unbound global `project`. -/
def mkTarget (pr : CMakeProject) (name : String) : Except Err TargetM :=
  match lookupRaw pr.targets name with
  | none => .error (.unknownTarget name)
  | some raw => do
    let cmakeName ← getCmakeTargetName name
    if raw.sub_cmake_target_and_link ≠ [] then .error .nameError
    else .ok (mkTargetOfRaw pr name raw cmakeName)

/-- Source `Target.should_check_sources_target`. -/
def shouldCheckSourcesTarget (t : TargetM) : Bool :=
  match t.gnType with
  | some s => s ∈ ["executable", "loadable_module", "shared_library",
                   "static_library", "source_set", "group"]
  | none => false

/-- Source `Target.is_useful_target`: targets of non-checkable kinds are always
useful; checkable kinds are useful exactly when some source is neither a
`.h` nor a `.hpp` file. -/
def isUsefulTarget (t : TargetM) : Bool :=
  if ¬ shouldCheckSourcesTarget t then true
  else if t.sources.length > 0 then
    t.sources.any (fun s => ¬ pyEndsWith s ".h" ∧ ¬ pyEndsWith s ".hpp")
  else false

/-- The classification test of `recursive_find_dependent_targets` line 238,
`main_target.is_cmake_target or main_target.cmake_type.is_dependency_barrier`,
as a Boolean (the short-circuit hides the `None` dereference when the flag is
set; the walk itself errors in the remaining `None` case). -/
def barrierCond (t : TargetM) : Bool :=
  t.isCmakeTarget ||
    (match t.cmakeType with
     | some ct => ct.is_dependency_barrier
     | none => false)

/-! ## The dependency walk (`find_all_dependencies` /
`recursive_find_dependent_targets`) -/

/-- The mutable state threaded through one resolution walk: the two output
sets, the `has_checked_targets` memo (as the list of memoized ids), the
per-target `dep_actions` sets (one dictionary entry per target object, which
models Python's by-reference sharing of the memoized sets), and the running
package aggregate held on the root target (`self.deps_packages`,
`self.link_modules`). -/
structure WalkState where
  sources : List String
  binaries : List String
  visited : List String
  depActions : List (String × List String)
  depsPackages : List (String × Bool × List String)
  linkModules : List String
deriving Repr, DecidableEq

/-- The `dep_actions` set of the target object named `n` (empty when the
target has not recorded any). -/
def actionsOf (st : WalkState) (n : String) : List String :=
  ((st.depActions.find? (fun p => p.1 = n)).map (·.2)).getD []

/-- Overwrite the `dep_actions` set of target `n`. -/
def setActions (st : WalkState) (n : String) (acts : List String) : WalkState :=
  if (st.depActions.find? (fun p => p.1 = n)).isSome then
    { st with depActions := st.depActions.map (fun p => if p.1 = n then (n, acts) else p) }
  else { st with depActions := st.depActions ++ [(n, acts)] }

/-- Source `main_target.dep_actions.add(dep_target.cmake_name)`. -/
def addAction (st : WalkState) (parent : String) (a : String) : WalkState :=
  setActions st parent (setAdd (actionsOf st parent) a)

/-- Source `main_target.dep_actions = main_target.dep_actions.union(dep_target.dep_actions)`. -/
def unionActions (st : WalkState) (parent dep : String) : WalkState :=
  setActions st parent (pyListUnion (actionsOf st parent) (actionsOf st dep))

/-- The entry-level merge of `Target.add_deps_packages` for one package name
declared on both sides: OR the `configd` flags and union the search paths. -/
def mergePkgEntry (a b : Bool × List String) : Bool × List String :=
  (a.1 || b.1, pyListUnion a.2 b.2)

/-- One iteration of the `add_deps_packages` loop body: merge the entry `p`
into the running dict `acc`, combining with an existing same-named entry via
`mergePkgEntry` or inserting it fresh. -/
def mergeStep (acc : List (String × Bool × List String))
    (p : String × Bool × List String) : List (String × Bool × List String) :=
  match pkgLookup acc p.1 with
  | some old => dictInsertPkg acc p.1 (mergePkgEntry old p.2)
  | none => dictInsertPkg acc p.1 p.2

/-- Source `Target.add_deps_packages`: fold the visited target's package dict into
the root's running dict (merging same-named entries) and union the link
modules. -/
def addDepsPackages (st : WalkState) (t : TargetM) : WalkState :=
  let pkgs := t.depsPackages.foldl mergeStep st.depsPackages
  let mods := if t.linkModules ≠ [] then pyListUnion st.linkModules t.linkModules
              else st.linkModules
  { st with depsPackages := pkgs, linkModules := mods }

/-- The set-level view of one package entry: the `configd` flag and the
search paths as a finite set (the list order of a Python set is
unspecified). -/
def pkgView (d : List (String × Bool × List String)) (k : String) :
    Option (Bool × Finset String) :=
  (pkgLookup d k).map (fun e => (e.1, e.2.toFinset))

/-- Merge of two optional package entries on the set view: `none` is the
identity, two present entries OR their flags and union their path sets. -/
def optMergeView :
    Option (Bool × Finset String) → Option (Bool × Finset String) →
      Option (Bool × Finset String)
  | none, b => b
  | some a, none => some a
  | some a, some b => some (a.1 || b.1, a.2 ∪ b.2)

/-- The state update applied to a fresh useful non-barrier node: add it to
the source set and fold in its packages (`all_deps_source_targets.add` and
`self.add_deps_packages`); a non-useful node leaves the state unchanged. -/
def usefulUpdate (st : WalkState) (t : TargetM) : WalkState :=
  if isUsefulTarget t then
    addDepsPackages { st with sources := setAdd st.sources t.gnName } t
  else st

/-- The two recursion shapes of the walk: visiting one already-constructed
`Target` (`recursive_find_dependent_targets`) and iterating one target's
`deps` list (the shared loop body of `find_all_dependencies` and of the
recursive step). -/
inductive WalkCall where
  | node (t : TargetM)
  | deps (parent : String) (l : List String)

/-- One fuel-bounded step of the walk.  `node t`: if `t` is memoized, return
immediately (the memoized `dep_actions` set stays shared through the
`depActions` dictionary); otherwise memoize it, classify it (barrier /
`None`-type crash / source unit) and walk its deps.  `deps parent l`:
construct each dep target, record script-kind deps in the parent's
`dep_actions`, recurse, and union the dep's `dep_actions` into the parent's. -/
def walk (pr : CMakeProject) : Nat → WalkCall → WalkState → Except Err WalkState
  | 0, _, _ => .error .outOfFuel
  | f + 1, .node t, st =>
    if t.gnName ∈ st.visited then .ok st
    else
      let st := { st with visited := t.gnName :: st.visited }
      if t.isCmakeTarget then .ok { st with binaries := setAdd st.binaries t.gnName }
      else
        match t.cmakeType with
        | none => .error .attributeError
        | some ct =>
          if ct.is_dependency_barrier then
            .ok { st with binaries := setAdd st.binaries t.gnName }
          else
            walk pr f (.deps t.gnName t.deps) (usefulUpdate st t)
  | _ + 1, .deps _ [], st => .ok st
  | f + 1, .deps parent (d :: ds), st => do
    let dt ← mkTarget pr d
    let st := if isScriptType dt.gnType then addAction st parent dt.cmakeName else st
    let st' ← walk pr f (.node dt) st
    let st' := unionActions st' parent d
    walk pr f (.deps parent ds) st'

/-- The weight a not-yet-visited target contributes to the fuel bound. -/
def targetWeight (r : RawTarget) : Nat := 1 + r.deps.length

/-- Fuel that provably suffices for any walk over `pr` (see
`walk_enough_fuel`): the total weight of the graph plus the root's dep count. -/
def totalFuel (pr : CMakeProject) (rootT : TargetM) : Nat :=
  (pr.targets.map (fun p => targetWeight p.2)).sum + rootT.deps.length + 1

/-- The state seeded by `find_all_dependencies`: the root memoized, added to
the source set when useful, and its own package aggregate as the running
totals. -/
def initState (rootT : TargetM) : WalkState :=
  { sources := if isUsefulTarget rootT then [rootT.gnName] else []
    binaries := []
    visited := [rootT.gnName]
    depActions := []
    depsPackages := rootT.depsPackages
    linkModules := rootT.linkModules }

/-- Source `Target.find_all_dependencies`. -/
def findAllDependencies (pr : CMakeProject) (rootT : TargetM) : Except Err WalkState :=
  walk pr (totalFuel pr rootT) (.deps rootT.gnName rootT.deps) (initState rootT)

/-- Construct the root target and run its walk (the resolution part of
`write_project` for one root). -/
def resolve (pr : CMakeProject) (rootName : String) : Except Err WalkState := do
  let t ← mkTarget pr rootName
  findAllDependencies pr t

/-! ## Podspec side (`gn_to_podspec_script.py`) -/

/-- One entry of the `dependency` metadata list: either a plain name string or
a `[name, version, ...]` list. -/
inductive DepDecl where
  | dstr (s : String)
  | dlist (items : List String)
deriving Repr, DecidableEq

/-- A dictionary value that is either a version string or the bare int
`1000000` used by `flatten_subspec_targets` as the missing-key default for
`dependency_versions`. -/
inductive VVal where
  | vstr (s : String)
  | vint (n : Nat)
deriving Repr, DecidableEq

/-- The raw per-target record of the podspec project, restricted to the
attributes that feed the flatten machinery.  Remaining metadata
(`requires_arc`, `vendored_*`, `public_header_files`, `resource_bundles`,
`condition_deps`, ...) are carrier attributes elided from the model. -/
structure RawPodTarget where
  sources : List String := []
  exclude_sources : List String := []
  deps : List String := []
  is_subspec_target : Bool := false
  flatten_deps : List String := []
  dependency : List DepDecl := []
  pattern_source_files : List String := []
  pattern_exclude_files : List String := []
  pod_target_xcconfig : List (String × List String) := []
  header_dir : String := ""
  header_mappings_dir : String := ""
  frameworks : List String := []
  libraries : List String := []
  compiler_flags : List String := []
  output_name : String := ""
  test_subspec : Bool := false
deriving Repr, DecidableEq

/-- The podspec project: the target dictionary. -/
def PodProject : Type := List (String × RawPodTarget)

/-- Python dict lookup on the podspec target dictionary. -/
def lookupPod (g : PodProject) (name : String) : Option RawPodTarget :=
  (g.find? (fun p => p.1 = name)).map (·.2)

/-- Lexicographic code-point comparison of character lists (Python's string
ordering), kernel-computable. -/
def listCharLt : List Char → List Char → Bool
  | [], [] => false
  | [], _ :: _ => true
  | _ :: _, [] => false
  | a :: as, b :: bs =>
    if a.toNat < b.toNat then true
    else if b.toNat < a.toNat then false
    else listCharLt as bs

/-- Python `a <= b` on strings. -/
def pyStrLe (a b : String) : Bool :=
  ¬ listCharLt b.toList a.toList

/-- Insertion sort step for Python's stable ascending `sorted`. -/
def sortInsert (a : String) : List String → List String
  | [] => [a]
  | b :: l => if pyStrLe a b then a :: b :: l else b :: sortInsert a l

/-- Python `sorted` on a list of strings. -/
def pySort (l : List String) : List String :=
  l.foldr sortInsert []

/-- Source `SubspecTarget.format_root_path`: strip `//` everywhere, strip the
`build/secondary/` prefix (via a replace-all of that substring, exactly as
the source does), and sort. -/
def formatRootPath (paths : List String) : List String :=
  if paths.length ≤ 0 then paths
  else
    pySort (paths.map (fun path =>
      let path := pyReplace path "//" ""
      if pyStartsWith path "build/secondary/" then pyReplace path "build/secondary/" ""
      else path))

/-- Source `SubspecTarget.string_to_int`: concatenate all digit runs of the version
string and parse; `int("")` on a digit-free string raises `ValueError`. -/
def stringToInt (s : String) : Except Err Nat :=
  let ds := s.toList.filter Char.isDigit
  if ds = [] then .error .valueError
  else .ok (ds.foldl (fun acc c => acc * 10 + (c.toNat - '0'.toNat)) 0)

/-- Source `string_to_int` applied to a dictionary value: `re.findall(r"\d+", v)`
raises `TypeError` when `v` is the bare int default rather than a string. -/
def stringToIntV : VVal → Except Err Nat
  | .vstr s => stringToInt s
  | .vint _ => .error .typeError

/-- Python dict lookup returning a default: `d.get(k, default)`. -/
def vdictGet (d : List (String × VVal)) (k : String) (default : VVal) : VVal :=
  ((d.find? (fun p => p.1 = k)).map (·.2)).getD default

/-- Source `SubspecTarget.parse_dependency`: build the dependency-name set and the
version dictionary, keeping the numerically larger version when the same name
is declared twice.  A `[name]` singleton raises `IndexError` at
`dependency[1]` before the name is recorded; entries longer than two slots
record the name but not the version. -/
def parseDependency (deps : List DepDecl) :
    Except Err (List String × List (String × VVal)) :=
  deps.foldlM
    (fun acc dep =>
      match dep with
      | .dstr s => .ok (setAdd acc.1 s, acc.2)
      | .dlist items => do
        let name ← match items.get? 0 with
          | some n => pure n
          | none => .error .indexError
        let version ← match items.get? 1 with
          | some v => pure v
          | none => .error .indexError
        let depList := setAdd acc.1 name
        if items.length = 2 then
          match (acc.2.find? (fun p => p.1 = name)).map (·.2) with
          | some oldV => do
            let newInt ← stringToInt version
            let oldInt ← stringToIntV oldV
            if newInt > oldInt then
              .ok (depList, acc.2.map (fun p => if p.1 = name then (name, .vstr version) else p))
            else .ok (depList, acc.2)
          | none => .ok (depList, acc.2 ++ [(name, .vstr version)])
        else .ok (depList, acc.2))
    ([], [])

/-- The canonical iteration order for `var.keys() | flatten_value.keys()`
(a Python set, whose order is unspecified): the keys of `var` followed by the
new keys of `flat`.  Only the resulting key-value mapping is meaningful. -/
def dictKeysUnion (var flat : List (String × VVal)) : List String :=
  var.map (·.1) ++ (flat.map (·.1)).filter (fun k => k ∉ var.map (·.1))

/-- Source `add_dict_params` instantiated for `dependency_versions`: compare lambda
`v1 if string_to_int(v1) > string_to_int(v2) else v2`, default value the bare
int `1000000`.  A key present on only one side makes the lambda apply
`string_to_int` to the int default, which raises `TypeError`. -/
def mergeDependencyVersions (var flat : List (String × VVal)) :
    Except Err (List (String × VVal)) :=
  if flat = [] then .ok var
  else if var = [] then .ok flat
  else
    (dictKeysUnion var flat).mapM (fun k => do
      let v1 := vdictGet var k (.vint 1000000)
      let v2 := vdictGet flat k (.vint 1000000)
      let n1 ← stringToIntV v1
      let n2 ← stringToIntV v2
      pure (k, if n1 > n2 then v1 else v2))

/-- Source `add_dict_params` instantiated for `pod_target_xcconfig`: compare lambda
`set(v1) | set(v2)`, default `[]`.  The merged values are Python sets; the
canonical representative deduplicates the concatenation. -/
def mergeXcconfig (var flat : List (String × List String)) :
    List (String × List String) :=
  if flat = [] then var
  else if var = [] then flat
  else
    (var.map (·.1) ++ (flat.map (·.1)).filter (fun k => k ∉ var.map (·.1))).map
      (fun k =>
        let v1 := ((var.find? (fun p => p.1 = k)).map (·.2)).getD []
        let v2 := ((flat.find? (fun p => p.1 = k)).map (·.2)).getD []
        (k, (v1 ++ v2).dedup))

/-- Source `add_flatten_subspec_parm`: empty flatten values are ignored, an empty
own value is replaced wholesale, otherwise `sorted(set(flatten) | set(self))`. -/
def addFlattenListParm (self flat : List String) : List String :=
  if flat.length ≤ 0 then self
  else if self.length ≤ 0 then flat
  else pySort ((flat ++ self).dedup)

/-- Source `para_competition`: first-non-empty-wins for the string-valued fields. -/
def paraCompetition (self flat : String) : String :=
  if self = "" then flat else self

/-- The `SubspecTarget` object, restricted to the modelled attributes. -/
structure SubspecM where
  gnName : String
  deps : List String
  sourceFiles : List String
  excludeFiles : List String
  outputName : String
  testSubspec : Bool
  headerDir : String
  headerMappingsDir : String
  frameworks : List String
  libraries : List String
  dependencyList : List String
  dependencyVersions : List (String × VVal)
  compilerFlags : List String
  podTargetXcconfig : List (String × List String)
  subspecTargetsList : List String
  flattenDeps : List String
deriving Repr, DecidableEq

/-- Source `SubspecTarget.find_all_dependencies`: partition the deps into subspec
targets and plain targets whose sources are folded into `source_files`
(dedup + sort on every absorption, as the source does). -/
def findAllDepsPod (g : PodProject) (deps : List String) (sourceFiles : List String) :
    Except Err (List String × List String) := do
  let r ← deps.foldlM
    (fun acc dep =>
      match lookupPod g dep with
      | none => .error (.unknownTarget dep)
      | some dt =>
        if dt.is_subspec_target then .ok (acc.1, setAdd acc.2 dep)
        else .ok (pySort ((acc.1 ++ formatRootPath dt.sources).dedup), acc.2))
    (sourceFiles, [])
  if r.2.length > 0 then .ok (r.1, pySort r.2) else .ok (r.1, [])

/-- The checking loop of `get_flatten_deps`: every flatten dep must exist
(`KeyError` otherwise) and be a subspec target (fatal exception otherwise).
Returns the canonical list of the collected set. -/
def checkFlattenDeps (g : PodProject) (selfName : String) (deps : List String) :
    Except Err (List String) := do
  let s ← deps.foldlM
    (fun acc dep =>
      match lookupPod g dep with
      | none => .error (.unknownTarget dep)
      | some dt =>
        if dt.is_subspec_target then .ok (setAdd acc dep)
        else .error (.illegalFlatten dep selfName))
    []
  .ok s

/-- The field-by-field body of `flatten_subspec_targets` for one absorbed
subtree: dictionary fields through `add_dict_params`, the two string fields
through `para_competition`, the identity fields (`gn_name`, `output_name`,
`test_subspec`, `flatten_deps`) excluded, and every other modelled field
through `add_flatten_subspec_parm`. -/
def mergeFlatten (self sub : SubspecM) : Except Err SubspecM := do
  let dv ← mergeDependencyVersions self.dependencyVersions sub.dependencyVersions
  .ok { self with
    deps := addFlattenListParm self.deps sub.deps
    sourceFiles := addFlattenListParm self.sourceFiles sub.sourceFiles
    excludeFiles := addFlattenListParm self.excludeFiles sub.excludeFiles
    headerDir := paraCompetition self.headerDir sub.headerDir
    headerMappingsDir := paraCompetition self.headerMappingsDir sub.headerMappingsDir
    frameworks := addFlattenListParm self.frameworks sub.frameworks
    libraries := addFlattenListParm self.libraries sub.libraries
    dependencyList := addFlattenListParm self.dependencyList sub.dependencyList
    dependencyVersions := dv
    compilerFlags := addFlattenListParm self.compilerFlags sub.compilerFlags
    podTargetXcconfig := mergeXcconfig self.podTargetXcconfig sub.podTargetXcconfig
    subspecTargetsList := addFlattenListParm self.subspecTargetsList sub.subspecTargetsList }

/-- The two recursion shapes of the subspec construction: building one
`SubspecTarget` (`__init__`, which ends in `get_flatten_deps`) and the
absorption loop of `flatten_subspec_targets` over the pending flatten ids. -/
inductive PodCall where
  | mk (name : String)
  | flat (self : SubspecM) (pending : List String)

/-- One fuel-bounded step of the subspec construction.  There is no cycle
detection anywhere in this recursion: a flatten dep that (directly or
transitively) names the constructing target again re-enters `mk` and the
recursion never returns, which the model renders as fuel exhaustion. -/
def subspecStep (g : PodProject) : Nat → PodCall → Except Err SubspecM
  | 0, _ => .error .outOfFuel
  | f + 1, .mk name =>
    match lookupPod g name with
    | none => .error (.illegalSubspec name)
    | some raw => do
      let deps := pySort raw.deps
      let sourceFiles := formatRootPath (raw.sources ++ raw.pattern_source_files)
      let excludeFiles := formatRootPath (raw.exclude_sources ++ raw.pattern_exclude_files)
      let pd ← parseDependency raw.dependency
      let fa ← findAllDepsPod g deps sourceFiles
      let flatten ← checkFlattenDeps g name (pySort raw.flatten_deps)
      let base : SubspecM :=
        { gnName := name
          deps := deps
          sourceFiles := fa.1
          excludeFiles := excludeFiles
          outputName := raw.output_name
          testSubspec := raw.test_subspec
          headerDir := raw.header_dir
          headerMappingsDir := raw.header_mappings_dir
          frameworks := raw.frameworks
          libraries := raw.libraries
          dependencyList := pd.1
          dependencyVersions := pd.2
          compilerFlags := raw.compiler_flags
          podTargetXcconfig := raw.pod_target_xcconfig
          subspecTargetsList := fa.2
          flattenDeps := [] }
      if flatten.length > 0 then do
        let flattened ← subspecStep g f (.flat base flatten)
        .ok { flattened with flattenDeps := flatten }
      else .ok base
  | _ + 1, .flat self [] => .ok self
  | f + 1, .flat self (d :: ds) => do
    let sub ← subspecStep g f (.mk d)
    let merged ← mergeFlatten self sub
    subspecStep g f (.flat merged ds)

/-- Source `SubspecTarget(name, project)`. -/
def mkSubspecTarget (g : PodProject) (fuel : Nat) (name : String) : Except Err SubspecM :=
  subspecStep g fuel (.mk name)

/-! ## `write_project` and `gn_to_cmake` -/

/-- The two recursion shapes of `write_project`: emitting one root and
iterating the `sub_cmake_target` list of a root. -/
inductive WPCall where
  | one (t : TargetM)
  | many (l : List String)

/-- Source `write_project`, restricted to its resolution content: the linkability
gate (an unrecognized type dereferences `None.is_linkable`, recognized
non-linkable types raise the explicit exception) runs before any dependency
resolution; then the root's dependencies are resolved and every
`sub_cmake_target` id is recursively emitted as a nested root.  The returned
list pairs each emitted root with its resolved walk state. -/
def writeProjectAux (pr : CMakeProject) :
    Nat → WPCall → Except Err (List (String × WalkState))
  | 0, _ => .error .outOfFuel
  | f + 1, .one t =>
    match t.cmakeType with
    | none => .error .attributeError
    | some ct =>
      if ¬ ct.is_linkable then .error (.notLinkable t.gnName)
      else do
        let res ← findAllDependencies pr t
        let subs ← writeProjectAux pr f (.many t.subCmakeTarget)
        .ok ((t.gnName, res) :: subs)
  | _ + 1, .many [] => .ok []
  | f + 1, .many (s :: ss) => do
    let subT ← mkTarget pr s
    let rs ← writeProjectAux pr f (.one subT)
    let rest ← writeProjectAux pr f (.many ss)
    .ok (rs ++ rest)

/-- The loop body of `gn_to_cmake` for one requested root: a root id absent
from the project is only printed and skipped, a root flagged
`is_only_sub_cmake` is skipped, any other error propagates out of the loop
(the Python exception is uncaught). -/
def processRoot (pr : CMakeProject) (fuel : Nat)
    (acc : List (String × WalkState)) (name : String) :
    Except Err (List (String × WalkState)) :=
  match lookupRaw pr.targets name with
  | none => .ok acc
  | some _ => do
    let t ← mkTarget pr name
    if t.isOnlySubCmake = true then .ok acc
    else do
      let rs ← writeProjectAux pr fuel (.one t)
      .ok (acc ++ rs)

/-- Source `gn_to_cmake`: process the requested roots in order; an uncaught error
from one root ends the whole run. -/
def gnToCmake (pr : CMakeProject) (fuel : Nat) (roots : List String) :
    Except Err (List (String × WalkState)) :=
  roots.foldlM (processRoot pr fuel) []

/-! ## Proof-support definitions -/

/-- The weight-after-memoization measure: total weight of the graph entries
whose ids are not yet memoized.  Fuel strictly above this measure (plus the
length of the pending dep list) never runs out (`walk_enough_fuel`). -/
def muW (pr : CMakeProject) (visited : List String) : Nat :=
  (pr.targets.map (fun p => if p.1 ∈ visited then 0 else targetWeight p.2)).sum

/-- Fuel demand of one walk call in the adequacy proof. -/
def needFuel (pr : CMakeProject) (c : WalkCall) (st : WalkState) : Nat :=
  match c with
  | .node _ => muW pr st.visited + 1
  | .deps _ l => muW pr st.visited + l.length + 1

/-- Call well-formedness: a `node` call always receives the `Target` object
freshly constructed from its id, as in the source. -/
def WFcall (pr : CMakeProject) : WalkCall → Prop
  | .node t => mkTarget pr t.gnName = .ok t
  | .deps _ _ => True

/-- The invariant maintained by the walk, relative to the root id: the two
output sets are duplicate-free subsets of the memo, they are disjoint,
and every memoized non-root id is classified consistently with the `Target`
constructed from it. -/
def WalkInv (pr : CMakeProject) (root : String) (st : WalkState) : Prop :=
  st.sources.Nodup ∧ st.binaries.Nodup ∧
  (∀ n ∈ st.sources, n ∈ st.visited) ∧
  (∀ n ∈ st.binaries, n ∈ st.visited) ∧
  (∀ n ∈ st.sources, n ∉ st.binaries) ∧
  (∀ n ∈ st.binaries, n ≠ root →
    ∃ t, mkTarget pr n = .ok t ∧ barrierCond t = true) ∧
  (∀ n ∈ st.sources, n ≠ root →
    ∃ t, mkTarget pr n = .ok t ∧ barrierCond t = false ∧ isUsefulTarget t = true) ∧
  (∀ n ∈ st.visited, n ≠ root →
    ∃ t, mkTarget pr n = .ok t ∧
      (barrierCond t = true → n ∈ st.binaries) ∧
      (barrierCond t = false → isUsefulTarget t = true → n ∈ st.sources))

/-! ## Concrete fixtures -/

/-- Cycle fixture: `A -> B -> A`, neither a barrier. -/
def cycPr : CMakeProject :=
  { targets := [
      ("//a:A", { type := some "source_set", sources := ["a.cc"], deps := ["//b:B"] }),
      ("//b:B", { type := some "source_set", sources := ["b.cc"], deps := ["//a:A"] })]
    root_path := "/root" }

/-- Barrier-opacity fixture: `R -> B -> C` with `B` a shared library. -/
def opacPr : CMakeProject :=
  { targets := [
      ("//r:R", { type := some "shared_library", sources := ["r.cc"], deps := ["//b:B"] }),
      ("//b:B", { type := some "shared_library", sources := ["b.cc"], deps := ["//c:C"] }),
      ("//c:C", { type := some "source_set", sources := ["c.cc"] })]
    root_path := "/root" }

/-- Unrecognized-kind fixture: the dep `X` has a type outside
`cmake_target_types` and no `is_cmake_target` flag. -/
def unsupPr : CMakeProject :=
  { targets := [
      ("//r:R", { type := some "shared_library", sources := ["r.cc"], deps := ["//x:X"] }),
      ("//x:X", { type := some "rust_library", sources := ["x.rs"] })]
    root_path := "/root" }

/-- Unrecognized-kind fixture with the `is_cmake_target` flag set on `X`. -/
def unsupFlagPr : CMakeProject :=
  { targets := [
      ("//r:R", { type := some "shared_library", sources := ["r.cc"], deps := ["//x:X"] }),
      ("//x:X", { type := some "rust_library", sources := ["x.rs"], is_cmake_target := true })]
    root_path := "/root" }

/-- Package-merge fixture, first visitation order (`N1` before `N2`). -/
def pkgPr1 : CMakeProject :=
  { targets := [
      ("//r:R", { type := some "shared_library", sources := ["r.cc"], deps := ["//n:N1", "//n:N2"] }),
      ("//n:N1", { type := some "source_set", sources := ["n1.cc"],
                   find_and_link_packages := [⟨"Foo", ["//p1"], "m0", ["m1"]⟩] }),
      ("//n:N2", { type := some "source_set", sources := ["n2.cc"],
                   find_and_link_packages := [⟨"Foo", ["//p2"], "cmake::configd", ["m2"]⟩] })]
    root_path := "/root" }

/-- Package-merge fixture, opposite visitation order (`N2` before `N1`). -/
def pkgPr2 : CMakeProject :=
  { targets := [
      ("//r:R", { type := some "shared_library", sources := ["r.cc"], deps := ["//n:N2", "//n:N1"] }),
      ("//n:N1", { type := some "source_set", sources := ["n1.cc"],
                   find_and_link_packages := [⟨"Foo", ["//p1"], "m0", ["m1"]⟩] }),
      ("//n:N2", { type := some "source_set", sources := ["n2.cc"],
                   find_and_link_packages := [⟨"Foo", ["//p2"], "cmake::configd", ["m2"]⟩] })]
    root_path := "/root" }

/-- Usefulness fixture: `L` is a header-only static library. -/
def usefulPrA : CMakeProject :=
  { targets := [
      ("//r:R", { type := some "shared_library", sources := ["m.cc"], deps := ["//l:L"] }),
      ("//l:L", { type := some "static_library", sources := ["a.h"] })]
    root_path := "/root" }

/-- Usefulness fixture: the same `L` with one compiled source added. -/
def usefulPrB : CMakeProject :=
  { targets := [
      ("//r:R", { type := some "shared_library", sources := ["m.cc"], deps := ["//l:L"] }),
      ("//l:L", { type := some "static_library", sources := ["a.h", "a.cc"] })]
    root_path := "/root" }

/-- Missing-dependency fixture: root `R1` has a dep id absent from the graph,
root `R2` is independent and well-formed. -/
def missPr : CMakeProject :=
  { targets := [
      ("//r:R1", { type := some "shared_library", sources := ["a.cc"], deps := ["//x:MISSING"] }),
      ("//r:R2", { type := some "shared_library", sources := ["b.cc"] })]
    root_path := "/root" }

/-- Podspec fixture: a subspec target that flattens itself. -/
def podSelfG : PodProject :=
  [("A", { is_subspec_target := true, flatten_deps := ["A"] })]

/-- Podspec fixture: two subspec targets that flatten each other. -/
def podTransG : PodProject :=
  [("A", { is_subspec_target := true, flatten_deps := ["B"] }),
   ("B", { is_subspec_target := true, flatten_deps := ["A"] })]

/-- Podspec fixture: `N` flattens two subtrees both declaring `Bar`, at
versions `1.2.0` and `1.10.0`. -/
def podVerG : PodProject :=
  [("N", { is_subspec_target := true, flatten_deps := ["S1", "S2"] }),
   ("S1", { is_subspec_target := true, dependency := [.dlist ["Bar", "1.2.0"]] }),
   ("S2", { is_subspec_target := true, dependency := [.dlist ["Bar", "1.10.0"]] })]

/-- Podspec fixture: the absorbing node and the absorbed subtree declare
version maps with different key sets. -/
def podVerBadG : PodProject :=
  [("N", { is_subspec_target := true, dependency := [.dlist ["Baz", "1.0"]],
           flatten_deps := ["S2"] }),
   ("S2", { is_subspec_target := true, dependency := [.dlist ["Bar", "1.10.0"]] })]

/-- The `SubspecTarget` record built for `"A"` of `podSelfG` just before its
flatten loop runs. -/
def podSelfBase : SubspecM :=
  { gnName := "A", deps := [], sourceFiles := [], excludeFiles := [],
    outputName := "", testSubspec := false, headerDir := "", headerMappingsDir := "",
    frameworks := [], libraries := [], dependencyList := [],
    dependencyVersions := [], compilerFlags := [], podTargetXcconfig := [],
    subspecTargetsList := [], flattenDeps := [] }

/-- The record built for `"A"` of `podTransG` before its flatten loop. -/
def podTransBaseA : SubspecM := podSelfBase

/-- The record built for `"B"` of `podTransG` before its flatten loop. -/
def podTransBaseB : SubspecM := { podSelfBase with gnName := "B" }

/-- The state `resolve cycPr "//a:A"` computes (used by witnesses). -/
def cycResolvedState : WalkState :=
  { sources := ["//a:A", "//b:B"]
    binaries := []
    visited := ["//b:B", "//a:A"]
    depActions := [("//b:B", []), ("//a:A", [])]
    depsPackages := []
    linkModules := [] }

/-- An arbitrary target object whose id is already memoized (witnesses). -/
def walkMemoT : TargetM :=
  { gnName := "//a:A", gnType := some "source_set", deps := [], sources := [],
    isCmakeTarget := false, isOnlySubCmake := false,
    cmakeType := some ⟨"add_library", some "OBJECT", none, false, false⟩,
    cmakeName := "a_A", depsPackages := [], linkModules := [], subCmakeTarget := [] }

/-- A walk state with `//a:A` memoized (witnesses). -/
def walkMemoSt : WalkState :=
  { sources := [], binaries := [], visited := ["//a:A"], depActions := [],
    depsPackages := [], linkModules := [] }

/-- An empty walk state (witnesses). -/
def walkEmptySt : WalkState :=
  { sources := [], binaries := [], visited := [], depActions := [],
    depsPackages := [], linkModules := [] }

/-- A walk state already carrying one `Foo` package entry (witnesses). -/
def pkgWitSt : WalkState :=
  { sources := [], binaries := [], visited := [], depActions := [],
    depsPackages := [("Foo", false, ["${ROOT_PATH}/p1"])], linkModules := [] }

/-- A target object declaring `Foo` and `Bar` packages (witnesses). -/
def pkgWitT1 : TargetM :=
  { gnName := "//t:T1", gnType := some "static_library", deps := [],
    sources := [], isCmakeTarget := false, isOnlySubCmake := false,
    cmakeType := cmake_target_types "static_library", cmakeName := "t_T1",
    depsPackages := [("Foo", true, ["${ROOT_PATH}/p2"]),
                     ("Bar", false, ["${ROOT_PATH}/q"])],
    linkModules := [], subCmakeTarget := [] }

/-- A target object declaring only a `Foo` package (witnesses). -/
def pkgWitT2 : TargetM :=
  { gnName := "//t:T2", gnType := some "static_library", deps := [],
    sources := [], isCmakeTarget := false, isOnlySubCmake := false,
    cmakeType := cmake_target_types "static_library", cmakeName := "t_T2",
    depsPackages := [("Foo", false, ["${ROOT_PATH}/p3"])],
    linkModules := [], subCmakeTarget := [] }

/-- A shared-library target object flagged as a dependency barrier (witnesses). -/
def barrierWitnessT : TargetM :=
  { gnName := "//b:B", gnType := some "shared_library", deps := ["//c:C"],
    sources := ["b.cc"], isCmakeTarget := false, isOnlySubCmake := false,
    cmakeType := some ⟨"add_library", some "SHARED", some "LIBRARY", true, true⟩,
    cmakeName := "b_B", depsPackages := [], linkModules := [], subCmakeTarget := [] }

/-- A header-only static library target object (witnesses). -/
def headerOnlyT : TargetM :=
  { gnName := "//l:L", gnType := some "static_library", deps := [],
    sources := ["a.h"], isCmakeTarget := false, isOnlySubCmake := false,
    cmakeType := some ⟨"add_library", some "STATIC", some "ARCHIVE", true, false⟩,
    cmakeName := "l_L", depsPackages := [], linkModules := [], subCmakeTarget := [] }

/-- An action-kind target object, not subject to the source check (witnesses). -/
def actionKindT : TargetM :=
  { gnName := "//s:S", gnType := some "action", deps := [], sources := [],
    isCmakeTarget := false, isOnlySubCmake := false,
    cmakeType := some CMakeTargetType.custom, cmakeName := "s_S",
    depsPackages := [], linkModules := [], subCmakeTarget := [] }

/-- A target object of an unrecognized kind without the cmake flag (witnesses). -/
def unsupWitnessT : TargetM :=
  { gnName := "//x:X", gnType := some "rust_library", deps := [], sources := ["x.rs"],
    isCmakeTarget := false, isOnlySubCmake := false, cmakeType := none,
    cmakeName := "x_X", depsPackages := [], linkModules := [], subCmakeTarget := [] }

/-- A source-set target object, not linkable (witnesses). -/
def sourceSetT : TargetM :=
  { gnName := "//s:SS", gnType := some "source_set", deps := [], sources := ["a.cc"],
    isCmakeTarget := false, isOnlySubCmake := false,
    cmakeType := some ⟨"add_library", some "OBJECT", none, false, false⟩,
    cmakeName := "s_SS", depsPackages := [], linkModules := [], subCmakeTarget := [] }

/-- An empty project (witnesses). -/
def emptyPr : CMakeProject := { targets := [], root_path := "/root" }

/-! ## Small state lemmas -/

theorem setActions_visited (st : WalkState) (n : String) (a : List String) :
    (setActions st n a).visited = st.visited := by
  unfold setActions; split <;> rfl

theorem setActions_sources (st : WalkState) (n : String) (a : List String) :
    (setActions st n a).sources = st.sources := by
  unfold setActions; split <;> rfl

theorem setActions_binaries (st : WalkState) (n : String) (a : List String) :
    (setActions st n a).binaries = st.binaries := by
  unfold setActions; split <;> rfl

theorem addAction_visited (st : WalkState) (p a : String) :
    (addAction st p a).visited = st.visited := setActions_visited _ _ _

theorem addAction_sources (st : WalkState) (p a : String) :
    (addAction st p a).sources = st.sources := setActions_sources _ _ _

theorem addAction_binaries (st : WalkState) (p a : String) :
    (addAction st p a).binaries = st.binaries := setActions_binaries _ _ _

theorem unionActions_visited (st : WalkState) (p d : String) :
    (unionActions st p d).visited = st.visited := setActions_visited _ _ _

theorem unionActions_sources (st : WalkState) (p d : String) :
    (unionActions st p d).sources = st.sources := setActions_sources _ _ _

theorem unionActions_binaries (st : WalkState) (p d : String) :
    (unionActions st p d).binaries = st.binaries := setActions_binaries _ _ _

theorem addDepsPackages_visited (st : WalkState) (t : TargetM) :
    (addDepsPackages st t).visited = st.visited := rfl

theorem addDepsPackages_sources (st : WalkState) (t : TargetM) :
    (addDepsPackages st t).sources = st.sources := rfl

theorem addDepsPackages_binaries (st : WalkState) (t : TargetM) :
    (addDepsPackages st t).binaries = st.binaries := rfl

theorem usefulUpdate_visited (st : WalkState) (t : TargetM) :
    (usefulUpdate st t).visited = st.visited := by
  unfold usefulUpdate; split <;> rfl

theorem usefulUpdate_binaries (st : WalkState) (t : TargetM) :
    (usefulUpdate st t).binaries = st.binaries := by
  unfold usefulUpdate; split <;> rfl

theorem usefulUpdate_sources (st : WalkState) (t : TargetM) :
    (usefulUpdate st t).sources =
      if isUsefulTarget t then setAdd st.sources t.gnName else st.sources := by
  unfold usefulUpdate; split <;> rfl

/-! ## Memoization and barrier-step lemmas -/

theorem walk_memo (pr : CMakeProject) (f : Nat) (st : WalkState) (t : TargetM)
    (h : t.gnName ∈ st.visited) : walk pr (f + 1) (.node t) st = .ok st := by
  simp [walk, h]

theorem walk_barrier_step (pr : CMakeProject) (f : Nat) (st : WalkState) (t : TargetM)
    (h : t.gnName ∉ st.visited) (hb : barrierCond t = true) :
    walk pr (f + 1) (.node t) st =
      .ok { st with visited := t.gnName :: st.visited,
                    binaries := setAdd st.binaries t.gnName } := by
  by_cases hc : t.isCmakeTarget
  · simp [walk, h, hc]
  · cases hct : t.cmakeType with
    | none =>
      exfalso
      unfold barrierCond at hb
      rw [hct] at hb
      simp [hc] at hb
    | some ct =>
      have hbar : ct.is_dependency_barrier = true := by
        unfold barrierCond at hb
        rw [hct] at hb
        simpa [hc] using hb
      simp [walk, h, hc, hct, hbar]

/-! ## Monotonicity of the memo -/

theorem walk_visited_mono (pr : CMakeProject) :
    ∀ (f : Nat) (c : WalkCall) (st st' : WalkState),
      walk pr f c st = .ok st' → st.visited ⊆ st'.visited := by
  intro f
  induction f with
  | zero => intro c st st' h; simp [walk] at h
  | succ f ih =>
    intro c st st' h
    match c with
    | .node t =>
      unfold walk at h
      split at h
      · cases h; exact fun a ha => ha
      · split at h
        · cases h
          exact fun a ha => List.mem_cons_of_mem _ ha
        · split at h
          · simp at h
          · split at h
            · cases h
              exact fun a ha => List.mem_cons_of_mem _ ha
            · have hsub := ih _ _ _ h
              rw [usefulUpdate_visited] at hsub
              exact fun a ha => hsub (List.mem_cons_of_mem _ ha)
    | .deps p [] =>
      unfold walk at h; cases h; exact fun a ha => ha
    | .deps p (d :: ds) =>
      unfold walk at h
      cases hmk : mkTarget pr d with
      | error e =>
        rw [hmk] at h; simp only [bind, Except.bind] at h; exact Except.noConfusion h
      | ok dt =>
        rw [hmk] at h
        simp only [bind, Except.bind] at h
        cases hw : walk pr f (.node dt)
            (if isScriptType dt.gnType = true then addAction st p dt.cmakeName else st) with
        | error e =>
          rw [hw] at h; simp only [bind, Except.bind] at h; exact Except.noConfusion h
        | ok st1 =>
          rw [hw] at h
          simp only [bind, Except.bind] at h
          have h1 := ih _ _ _ hw
          have h2 := ih _ _ _ h
          intro a ha
          have ha1 : a ∈ st1.visited := by
            apply h1
            split <;> simp [addAction_visited, ha]
          have ha2 : a ∈ (unionActions st1 p d).visited := by
            rw [unionActions_visited]; exact ha1
          exact h2 ha2

/-! ## No shape of error other than fuel exhaustion is `outOfFuel` -/

theorem parseGnName_ne_outOfFuel (cs : List Char) :
    parseGnName cs ≠ .error .outOfFuel := by
  unfold parseGnName
  repeat' split
  all_goals simp

theorem assembleCmakeName_ne_outOfFuel (l : List Char) (n? t? : Option (List Char)) :
    assembleCmakeName l n? t? ≠ .error .outOfFuel := by
  unfold assembleCmakeName
  repeat' split
  all_goals simp

theorem getCmakeTargetName_ne_outOfFuel (s : String) :
    getCmakeTargetName s ≠ .error .outOfFuel := by
  unfold getCmakeTargetName
  cases hp : parseGnName s.toList with
  | error e =>
    simp only [bind, Except.bind]
    intro hc
    cases hc
    exact parseGnName_ne_outOfFuel _ hp
  | ok v =>
    obtain ⟨l, n?, t?⟩ := v
    simp only [bind, Except.bind]
    cases ha : assembleCmakeName l n? t? with
    | error e =>
      intro hc
      cases hc
      exact assembleCmakeName_ne_outOfFuel _ _ _ ha
    | ok r => simp [pure, Except.pure]

theorem mkTarget_ne_outOfFuel (pr : CMakeProject) (n : String) :
    mkTarget pr n ≠ .error .outOfFuel := by
  unfold mkTarget
  cases hlk : lookupRaw pr.targets n with
  | none => simp
  | some raw =>
    simp only [bind, Except.bind]
    cases hn : getCmakeTargetName n with
    | error e =>
      intro hc
      cases hc
      exact getCmakeTargetName_ne_outOfFuel _ hn
    | ok cn =>
      by_cases hsub : raw.sub_cmake_target_and_link = [] <;> simp [hsub]

/-! ## Facts about a successfully constructed target -/

theorem mkTarget_ok_facts {pr : CMakeProject} {n : String} {t : TargetM}
    (h : mkTarget pr n = .ok t) :
    t.gnName = n ∧ ∃ raw, lookupRaw pr.targets n = some raw ∧ t.deps = raw.deps := by
  unfold mkTarget at h
  cases hlk : lookupRaw pr.targets n with
  | none => rw [hlk] at h; exact Except.noConfusion h
  | some raw =>
    rw [hlk] at h
    simp only [bind, Except.bind] at h
    cases hn : getCmakeTargetName n with
    | error e => rw [hn] at h; exact Except.noConfusion h
    | ok cn =>
      rw [hn] at h
      by_cases hsub : raw.sub_cmake_target_and_link = []
      · have h3 : mkTargetOfRaw pr n raw cn = t := by
          have h2 : (Except.ok (mkTargetOfRaw pr n raw cn) : Except Err TargetM) = .ok t := by
            simpa [hsub] using h
          cases h2
          rfl
        subst h3
        exact ⟨rfl, raw, rfl, rfl⟩
      · simp [hsub] at h

theorem mkTarget_cmakeType {pr : CMakeProject} {n : String} {t : TargetM}
    (h : mkTarget pr n = .ok t) :
    t.cmakeType = t.gnType.bind cmake_target_types := by
  unfold mkTarget at h
  cases hlk : lookupRaw pr.targets n with
  | none => rw [hlk] at h; exact Except.noConfusion h
  | some raw =>
    rw [hlk] at h
    simp only [bind, Except.bind] at h
    cases hn : getCmakeTargetName n with
    | error e => rw [hn] at h; exact Except.noConfusion h
    | ok cn =>
      rw [hn] at h
      by_cases hsub : raw.sub_cmake_target_and_link = []
      · have h3 : mkTargetOfRaw pr n raw cn = t := by
          have h2 : (Except.ok (mkTargetOfRaw pr n raw cn) : Except Err TargetM) = .ok t := by
            simpa [hsub] using h
          cases h2
          rfl
        subst h3
        rfl
      · simp [hsub] at h

/-! ## The fuel measure -/

theorem muW_mono_aux (l : List (String × RawTarget)) {v v' : List String} (h : v ⊆ v') :
    (l.map (fun p => if p.1 ∈ v' then 0 else targetWeight p.2)).sum ≤
      (l.map (fun p => if p.1 ∈ v then 0 else targetWeight p.2)).sum := by
  induction l with
  | nil => simp
  | cons p l ih =>
    simp only [List.map_cons, List.sum_cons]
    have hp : (if p.1 ∈ v' then 0 else targetWeight p.2) ≤
        (if p.1 ∈ v then 0 else targetWeight p.2) := by
      by_cases hv : p.1 ∈ v
      · simp [hv, h hv]
      · simp only [hv, if_false]
        split <;> omega
    omega

theorem muW_mono (pr : CMakeProject) {v v' : List String} (h : v ⊆ v') :
    muW pr v' ≤ muW pr v :=
  muW_mono_aux pr.targets h

theorem muW_insert_aux (l : List (String × RawTarget)) {n : String} {raw : RawTarget}
    {v : List String} (hlk : (l.find? (fun p => p.1 = n)).map (·.2) = some raw)
    (hv : n ∉ v) :
    (l.map (fun p => if p.1 ∈ n :: v then 0 else targetWeight p.2)).sum + targetWeight raw ≤
      (l.map (fun p => if p.1 ∈ v then 0 else targetWeight p.2)).sum := by
  induction l with
  | nil => simp at hlk
  | cons p l ih =>
    by_cases hp : p.1 = n
    · have hfind : (p :: l).find? (fun q => decide (q.1 = n)) = some p := by
        simp [List.find?, hp]
      rw [hfind] at hlk
      simp only [Option.map_some'] at hlk
      cases hlk
      simp only [List.map_cons, List.sum_cons, hp]
      have h1 : n ∈ n :: v := List.mem_cons_self n v
      simp only [h1, if_true, hv, if_false]
      have := @muW_mono_aux l v (n :: v) (fun a ha => List.mem_cons_of_mem _ ha)
      omega
    · have hfind : (p :: l).find? (fun q => decide (q.1 = n)) =
          l.find? (fun q => decide (q.1 = n)) := by
        simp [List.find?, hp]
      rw [hfind] at hlk
      have ih' := ih hlk
      simp only [List.map_cons, List.sum_cons]
      have : (if p.1 ∈ n :: v then 0 else targetWeight p.2) =
          (if p.1 ∈ v then 0 else targetWeight p.2) := by
        by_cases hm : p.1 ∈ v
        · simp [hm, List.mem_cons_of_mem _ hm]
        · have : p.1 ∉ n :: v := by
            intro hc
            rcases List.mem_cons.mp hc with h1 | h1
            · exact hp h1
            · exact hm h1
          simp [this, hm]
      omega

theorem muW_insert (pr : CMakeProject) {n : String} {raw : RawTarget} {v : List String}
    (hlk : lookupRaw pr.targets n = some raw) (hv : n ∉ v) :
    muW pr (n :: v) + targetWeight raw ≤ muW pr v :=
  muW_insert_aux pr.targets hlk hv

theorem muW_le_total (pr : CMakeProject) (v : List String) :
    muW pr v ≤ (pr.targets.map (fun p => targetWeight p.2)).sum := by
  unfold muW
  induction pr.targets with
  | nil => simp
  | cons p l ih =>
    simp only [List.map_cons, List.sum_cons]
    have : (if p.1 ∈ v then 0 else targetWeight p.2) ≤ targetWeight p.2 := by
      split <;> omega
    omega

/-! ## Adequacy: the chosen fuel never runs out -/

theorem walk_enough_fuel (pr : CMakeProject) :
    ∀ (f : Nat) (c : WalkCall) (st : WalkState), WFcall pr c →
      needFuel pr c st ≤ f → walk pr f c st ≠ .error .outOfFuel := by
  intro f
  induction f with
  | zero =>
    intro c st hwf hle
    exfalso
    cases c <;> simp only [needFuel] at hle <;> omega
  | succ f ih =>
    intro c st hwf hle
    cases c with
    | node t =>
      by_cases hv : t.gnName ∈ st.visited
      · rw [walk_memo pr f st t hv]; simp
      · unfold walk
        rw [if_neg hv]
        by_cases hc : t.isCmakeTarget
        · simp [hc]
        · simp only [hc, if_false, Bool.false_eq_true]
          obtain ⟨-, raw, hlk, hdeps⟩ := mkTarget_ok_facts hwf
          cases hct : t.cmakeType with
          | none => simp
          | some ct =>
            by_cases hb : ct.is_dependency_barrier
            · simp [hb]
            · simp only [hb, if_false, Bool.false_eq_true]
              apply ih
              · trivial
              · simp only [needFuel] at hle ⊢
                have hins := muW_insert pr hlk hv
                rw [usefulUpdate_visited]
                have hv2 : ({ st with visited := t.gnName :: st.visited } : WalkState).visited =
                    t.gnName :: st.visited := rfl
                rw [hv2]
                unfold targetWeight at hins
                rw [hdeps]
                omega
    | deps p l =>
      cases l with
      | nil => unfold walk; simp
      | cons d ds =>
        unfold walk
        cases hmk : mkTarget pr d with
        | error e =>
          simp only [bind, Except.bind]
          intro hcon
          cases hcon
          exact mkTarget_ne_outOfFuel pr d hmk
        | ok dt =>
          simp only [bind, Except.bind]
          have hgn : dt.gnName = d := (mkTarget_ok_facts hmk).1
          have hwf1 : WFcall pr (.node dt) := by
            show mkTarget pr dt.gnName = .ok dt
            rw [hgn]
            exact hmk
          have hvis1 : (if isScriptType dt.gnType = true then addAction st p dt.cmakeName
              else st).visited = st.visited := by
            split
            · exact addAction_visited _ _ _
            · rfl
          cases hw : walk pr f (.node dt)
              (if isScriptType dt.gnType = true then addAction st p dt.cmakeName else st) with
          | error e =>
            intro hcon
            cases hcon
            apply ih _ _ hwf1 _ hw
            simp only [needFuel] at hle ⊢
            rw [hvis1]
            simp only [List.length_cons] at hle
            omega
          | ok st1 =>
            apply ih
            · trivial
            · simp only [needFuel] at hle ⊢
              have hmono : muW pr st1.visited ≤ muW pr st.visited := by
                have hsub := walk_visited_mono pr f _ _ _ hw
                rw [hvis1] at hsub
                exact muW_mono pr hsub
              rw [unionActions_visited]
              simp only [List.length_cons] at hle
              omega

/-! ## setAdd lemmas -/

theorem setAdd_mem_iff (l : List String) (x a : String) :
    a ∈ setAdd l x ↔ a ∈ l ∨ a = x := by
  unfold setAdd
  split
  · constructor
    · exact fun h => Or.inl h
    · rintro (h | rfl)
      · exact h
      · assumption
  · simp [List.mem_append]

theorem setAdd_self_mem (l : List String) (x : String) : x ∈ setAdd l x := by
  rw [setAdd_mem_iff]; exact Or.inr rfl

theorem setAdd_mem_of_mem (l : List String) (x a : String) (h : a ∈ l) :
    a ∈ setAdd l x := by
  rw [setAdd_mem_iff]; exact Or.inl h

theorem setAdd_nodup (l : List String) (x : String) (h : l.Nodup) :
    (setAdd l x).Nodup := by
  unfold setAdd
  split
  · exact h
  · rename_i hx
    simp [List.nodup_append, h, hx]

/-! ## Invariant preservation -/

theorem WalkInv_congr {pr : CMakeProject} {root : String} {st st' : WalkState}
    (hs : st'.sources = st.sources) (hb : st'.binaries = st.binaries)
    (hv : st'.visited = st.visited) (h : WalkInv pr root st) : WalkInv pr root st' := by
  unfold WalkInv at h ⊢
  rw [hs, hb, hv]
  exact h

theorem WalkInv_addBarrier {pr : CMakeProject} {root : String} {st : WalkState}
    {t : TargetM} (hInv : WalkInv pr root st) (_hroot : root ∈ st.visited)
    (hfresh : t.gnName ∉ st.visited) (hmk : mkTarget pr t.gnName = .ok t)
    (hb : barrierCond t = true) :
    WalkInv pr root { st with visited := t.gnName :: st.visited,
                              binaries := setAdd st.binaries t.gnName } := by
  obtain ⟨h1, h2, h3, h4, h5, h6, h7, h8⟩ := hInv
  have hnb : t.gnName ∉ st.binaries := fun hc => hfresh (h4 _ hc)
  have hns : t.gnName ∉ st.sources := fun hc => hfresh (h3 _ hc)
  refine ⟨h1, setAdd_nodup _ _ h2 , ?_, ?_, ?_, ?_, ?_, ?_⟩
  · exact fun n hn => List.mem_cons_of_mem _ (h3 n hn)
  · intro n hn
    rcases (setAdd_mem_iff _ _ _).mp hn with h | rfl
    · exact List.mem_cons_of_mem _ (h4 n h)
    · exact List.mem_cons_self _ _
  · intro n hn hc
    rcases (setAdd_mem_iff _ _ _).mp hc with h | rfl
    · exact h5 n hn h
    · exact hns hn
  · intro n hn hne
    rcases (setAdd_mem_iff _ _ _).mp hn with h | rfl
    · exact h6 n h hne
    · exact ⟨t, hmk, hb⟩
  · exact fun n hn hne => h7 n hn hne
  · intro n hn hne
    rcases List.mem_cons.mp hn with rfl | h
    · exact ⟨t, hmk, fun _ => setAdd_self_mem _ _, fun hbf _ => by rw [hb] at hbf; cases hbf⟩
    · obtain ⟨u, hu1, hu2, hu3⟩ := h8 n h hne
      exact ⟨u, hu1, fun hbt => setAdd_mem_of_mem _ _ _ (hu2 hbt), hu3⟩

theorem WalkInv_addSource {pr : CMakeProject} {root : String} {st : WalkState}
    {t : TargetM} (hInv : WalkInv pr root st) (_hroot : root ∈ st.visited)
    (hfresh : t.gnName ∉ st.visited) (hmk : mkTarget pr t.gnName = .ok t)
    (hb : barrierCond t = false) :
    WalkInv pr root (usefulUpdate { st with visited := t.gnName :: st.visited } t) := by
  obtain ⟨h1, h2, h3, h4, h5, h6, h7, h8⟩ := hInv
  have hnb : t.gnName ∉ st.binaries := fun hc => hfresh (h4 _ hc)
  have hns : t.gnName ∉ st.sources := fun hc => hfresh (h3 _ hc)
  unfold WalkInv
  rw [usefulUpdate_sources, usefulUpdate_binaries, usefulUpdate_visited]
  have hv2 : ({ st with visited := t.gnName :: st.visited } : WalkState).visited =
      t.gnName :: st.visited := rfl
  have hs2 : ({ st with visited := t.gnName :: st.visited } : WalkState).sources =
      st.sources := rfl
  have hb2 : ({ st with visited := t.gnName :: st.visited } : WalkState).binaries =
      st.binaries := rfl
  rw [hv2, hs2, hb2]
  by_cases hu : isUsefulTarget t
  · rw [if_pos hu]
    refine ⟨setAdd_nodup _ _ h1, h2, ?_, ?_, ?_, ?_, ?_, ?_⟩
    · intro n hn
      rcases (setAdd_mem_iff _ _ _).mp hn with h | rfl
      · exact List.mem_cons_of_mem _ (h3 n h)
      · exact List.mem_cons_self _ _
    · exact fun n hn => List.mem_cons_of_mem _ (h4 n hn)
    · intro n hn hc
      rcases (setAdd_mem_iff _ _ _).mp hn with h | rfl
      · exact h5 n h hc
      · exact hnb hc
    · exact fun n hn hne => h6 n hn hne
    · intro n hn hne
      rcases (setAdd_mem_iff _ _ _).mp hn with h | rfl
      · exact h7 n h hne
      · exact ⟨t, hmk, hb, hu⟩
    · intro n hn hne
      rcases List.mem_cons.mp hn with rfl | h
      · refine ⟨t, hmk, ?_, ?_⟩
        · intro hbt
          rw [hb] at hbt
          exact absurd hbt (by decide)
        · intro _ _
          exact setAdd_self_mem _ _
      · obtain ⟨u, hu1, hu2, hu3⟩ := h8 n h hne
        exact ⟨u, hu1, hu2, fun hb2 hu2' => setAdd_mem_of_mem _ _ _ (hu3 hb2 hu2')⟩
  · rw [if_neg hu]
    refine ⟨h1, h2, ?_, ?_, h5, ?_, ?_, ?_⟩
    · exact fun n hn => List.mem_cons_of_mem _ (h3 n hn)
    · exact fun n hn => List.mem_cons_of_mem _ (h4 n hn)
    · exact fun n hn hne => h6 n hn hne
    · exact fun n hn hne => h7 n hn hne
    · intro n hn hne
      rcases List.mem_cons.mp hn with rfl | h
      · refine ⟨t, hmk, ?_, ?_⟩
        · intro hbt
          rw [hb] at hbt
          exact absurd hbt (by decide)
        · intro _ hut
          rw [hut] at hu
          exact absurd rfl hu
      · exact h8 n h hne

theorem walk_inv (pr : CMakeProject) (root : String) :
    ∀ (f : Nat) (c : WalkCall) (st st' : WalkState),
      WFcall pr c → WalkInv pr root st → root ∈ st.visited →
      walk pr f c st = .ok st' →
      WalkInv pr root st' ∧ st.visited ⊆ st'.visited ∧
        (∀ n ∈ st.sources, n ∈ st'.sources) ∧ (∀ n ∈ st.binaries, n ∈ st'.binaries) := by
  intro f
  induction f with
  | zero => intro c st st' _ _ _ h; simp [walk] at h
  | succ f ih =>
    intro c st st' hwf hInv hroot h
    cases c with
    | node t =>
      by_cases hv : t.gnName ∈ st.visited
      · rw [walk_memo pr f st t hv] at h
        cases h
        exact ⟨hInv, fun a ha => ha, fun n hn => hn, fun n hn => hn⟩
      · by_cases hbC : barrierCond t = true
        · rw [walk_barrier_step pr f st t hv hbC] at h
          cases h
          refine ⟨WalkInv_addBarrier hInv hroot hv hwf hbC, ?_, ?_, ?_⟩
          · exact fun a ha => List.mem_cons_of_mem _ ha
          · exact fun n hn => hn
          · exact fun n hn => setAdd_mem_of_mem _ _ _ hn
        · have hbF : barrierCond t = false := by
            cases hx : barrierCond t
            · rfl
            · exact absurd hx hbC
          unfold walk at h
          rw [if_neg hv] at h
          have hcF : t.isCmakeTarget = false := by
            unfold barrierCond at hbF
            cases hx : t.isCmakeTarget
            · rfl
            · rw [hx] at hbF; simp at hbF
          rw [hcF] at h
          simp only [Bool.false_eq_true, if_false] at h
          cases hct : t.cmakeType with
          | none =>
            rw [hct] at h
            exact Except.noConfusion h
          | some ct =>
            rw [hct] at h
            simp only [] at h
            have hctF : ct.is_dependency_barrier = false := by
              unfold barrierCond at hbF
              rw [hct, hcF] at hbF
              simpa using hbF
            rw [hctF] at h
            simp only [Bool.false_eq_true, if_false] at h
            have hInv2 := WalkInv_addSource hInv hroot hv hwf hbF
            have hroot2 : root ∈ (usefulUpdate { st with
                visited := t.gnName :: st.visited } t).visited := by
              rw [usefulUpdate_visited]
              exact List.mem_cons_of_mem _ hroot
            obtain ⟨hI, hV, hS, hB⟩ := ih (.deps t.gnName t.deps) _ _ (by trivial) hInv2 hroot2 h
            rw [usefulUpdate_visited] at hV
            refine ⟨hI, ?_, ?_, ?_⟩
            · exact fun a ha => hV (List.mem_cons_of_mem _ ha)
            · intro n hn
              apply hS
              rw [usefulUpdate_sources]
              split
              · exact setAdd_mem_of_mem _ _ _ hn
              · exact hn
            · intro n hn
              apply hB
              rw [usefulUpdate_binaries]
              exact hn
    | deps p l =>
      cases l with
      | nil =>
        unfold walk at h
        cases h
        exact ⟨hInv, fun a ha => ha, fun n hn => hn, fun n hn => hn⟩
      | cons d ds =>
        unfold walk at h
        cases hmk : mkTarget pr d with
        | error e =>
          rw [hmk] at h; simp only [bind, Except.bind] at h; exact Except.noConfusion h
        | ok dt =>
          rw [hmk] at h
          simp only [bind, Except.bind] at h
          have hgn : dt.gnName = d := (mkTarget_ok_facts hmk).1
          have hwf1 : WFcall pr (.node dt) := by
            show mkTarget pr dt.gnName = .ok dt
            rw [hgn]
            exact hmk
          set st0 := if isScriptType dt.gnType = true then addAction st p dt.cmakeName else st
            with hst0
          have hst0s : st0.sources = st.sources := by
            rw [hst0]; split
            · exact addAction_sources _ _ _
            · rfl
          have hst0b : st0.binaries = st.binaries := by
            rw [hst0]; split
            · exact addAction_binaries _ _ _
            · rfl
          have hst0v : st0.visited = st.visited := by
            rw [hst0]; split
            · exact addAction_visited _ _ _
            · rfl
          cases hw : walk pr f (.node dt) st0 with
          | error e =>
            rw [hw] at h; simp only [bind, Except.bind] at h; exact Except.noConfusion h
          | ok st1 =>
            rw [hw] at h
            simp only [bind, Except.bind] at h
            have hInv0 : WalkInv pr root st0 := WalkInv_congr hst0s hst0b hst0v hInv
            have hroot0 : root ∈ st0.visited := by rw [hst0v]; exact hroot
            obtain ⟨hI1, hV1, hS1, hB1⟩ := ih _ _ _ hwf1 hInv0 hroot0 hw
            have hInvU : WalkInv pr root (unionActions st1 p d) :=
              WalkInv_congr (unionActions_sources _ _ _) (unionActions_binaries _ _ _)
                (unionActions_visited _ _ _) hI1
            have hrootU : root ∈ (unionActions st1 p d).visited := by
              rw [unionActions_visited]
              exact hV1 (by rw [hst0v]; exact hroot)
            obtain ⟨hI2, hV2, hS2, hB2⟩ := ih (.deps p ds) _ _ (by trivial) hInvU hrootU h
            rw [unionActions_visited] at hV2
            rw [unionActions_sources] at hS2
            rw [unionActions_binaries] at hB2
            refine ⟨hI2, ?_, ?_, ?_⟩
            · intro a ha
              exact hV2 (hV1 (by rw [hst0v]; exact ha))
            · intro n hn
              exact hS2 _ (hS1 _ (by rw [hst0s]; exact hn))
            · intro n hn
              exact hB2 _ (hB1 _ (by rw [hst0b]; exact hn))

/-! ## Derived facts about `resolve` -/

theorem initState_inv (pr : CMakeProject) (rootT : TargetM) :
    WalkInv pr rootT.gnName (initState rootT) := by
  unfold WalkInv initState
  by_cases hu : isUsefulTarget rootT <;>
    simp [hu, List.nodup_cons]

theorem initState_root_visited (rootT : TargetM) :
    rootT.gnName ∈ (initState rootT).visited := by
  unfold initState
  exact List.mem_cons_self _ _

theorem resolve_ok_inv {pr : CMakeProject} {rootName : String} {st : WalkState}
    (h : resolve pr rootName = .ok st) :
    WalkInv pr rootName st ∧ rootName ∈ st.visited ∧
      ∃ rootT, mkTarget pr rootName = .ok rootT ∧
        (isUsefulTarget rootT = true → rootName ∈ st.sources) := by
  unfold resolve at h
  cases hmk : mkTarget pr rootName with
  | error e => rw [hmk] at h; exact Except.noConfusion h
  | ok rootT =>
    rw [hmk] at h
    simp only [bind, Except.bind] at h
    have hgn : rootT.gnName = rootName := (mkTarget_ok_facts hmk).1
    unfold findAllDependencies at h
    have hinv0 : WalkInv pr rootName (initState rootT) := by
      rw [← hgn]
      exact initState_inv pr rootT
    have hroot0 : rootName ∈ (initState rootT).visited := by
      rw [← hgn]
      exact initState_root_visited rootT
    obtain ⟨hI, hV, hS, hB⟩ := walk_inv pr rootName _ _ _ _ (by trivial) hinv0 hroot0 h
    refine ⟨hI, hV hroot0, rootT, rfl, ?_⟩
    intro hu
    apply hS
    unfold initState
    rw [if_pos hu, hgn]
    exact List.mem_cons_self _ _

theorem resolve_ne_outOfFuel (pr : CMakeProject) (rootName : String) :
    resolve pr rootName ≠ .error .outOfFuel := by
  unfold resolve
  cases hmk : mkTarget pr rootName with
  | error e =>
    simp only [bind, Except.bind]
    intro hc
    cases hc
    exact mkTarget_ne_outOfFuel pr rootName hmk
  | ok rootT =>
    simp only [bind, Except.bind]
    unfold findAllDependencies
    intro hc
    apply walk_enough_fuel pr (totalFuel pr rootT) (.deps rootT.gnName rootT.deps)
      (initState rootT) (by trivial) _ hc
    simp only [needFuel]
    unfold totalFuel
    have := muW_le_total pr (initState rootT).visited
    omega

/-! ## Character-find and slicing lemmas for the name derivation -/

theorem charFind_eq_none {c : Char} {cs : List Char} (h : c ∉ cs) :
    charFind c cs = none := by
  induction cs with
  | nil => rfl
  | cons x xs ih =>
    unfold charFind
    have hx : ¬ x = c := fun hc => h (hc ▸ List.mem_cons_self x xs)
    rw [if_neg hx, ih (fun hm => h (List.mem_cons_of_mem _ hm))]
    rfl

theorem charFind_append_cons (c : Char) (xs ys : List Char) (h : c ∉ xs) :
    charFind c (xs ++ c :: ys) = some xs.length := by
  induction xs with
  | nil => simp [charFind]
  | cons x xs ih =>
    have hx : ¬ x = c := fun hc => h (hc ▸ List.mem_cons_self x xs)
    simp only [List.cons_append, charFind, if_neg hx, List.append_eq,
      ih (fun hm => h (List.mem_cons_of_mem _ hm)), Option.map_some']
    rfl

theorem splitChar_append_sep (sep : Char) (p : List Char) (cs : List Char)
    (h : sep ∉ p) :
    splitChar sep (p ++ sep :: cs) = p :: splitChar sep cs := by
  induction p with
  | nil => simp [splitChar]
  | cons x xs ih =>
    have hx : ¬ x = sep := fun hc => h (hc ▸ List.mem_cons_self x xs)
    have ih' := ih (fun hm => h (List.mem_cons_of_mem _ hm))
    simp only [List.cons_append, splitChar, if_neg hx, List.append_eq, ih']

theorem splitChar_no_sep (sep : Char) (p : List Char) (hp : p ≠ []) (h : sep ∉ p) :
    splitChar sep p = [p] := by
  induction p with
  | nil => exact absurd rfl hp
  | cons x xs ih =>
    have hx : ¬ x = sep := fun hc => h (hc ▸ List.mem_cons_self x xs)
    by_cases hxs : xs = []
    · subst hxs
      simp [splitChar, if_neg hx]
    · have ih' := ih hxs (fun hm => h (List.mem_cons_of_mem _ hm))
      simp only [splitChar, if_neg hx, ih']

theorem extractInitialPath_joinSep (parts : List (List Char))
    (hne : parts ≠ []) (h : ∀ p ∈ parts, '/' ∉ p) :
    extractInitialPath (joinSep '/' parts) =
      joinSep '/' (parts.map firstCharOrEmpty) := by
  unfold extractInitialPath
  congr 1
  induction parts with
  | nil => exact absurd rfl hne
  | cons p ps ih =>
    cases ps with
    | nil =>
      simp only [joinSep, List.map_cons, List.map_nil]
      by_cases hp : p = []
      · subst hp; rfl
      · rw [splitChar_no_sep '/' p hp (h p (List.mem_cons_self _ _))]
        rfl
    | cons q qs =>
      have hjoin : joinSep '/' (p :: q :: qs) = p ++ '/' :: joinSep '/' (q :: qs) := rfl
      rw [hjoin, splitChar_append_sep '/' p _ (h p (List.mem_cons_self _ _))]
      have ih' := ih (by simp) (fun r hr => h r (List.mem_cons_of_mem _ hr))
      simp only [List.map_cons]
      rw [ih']
      simp

theorem parseGnName_plain (l n : List Char) (hl1 : ':' ∉ l) (hl2 : '(' ∉ l)
    (hn : '(' ∉ n) :
    parseGnName ('/' :: '/' :: (l ++ ':' :: n)) = .ok (l, some n, none) := by
  have hcs : '/' :: '/' :: (l ++ ':' :: n) = ('/' :: '/' :: l) ++ ':' :: n := by simp
  have hxs : (':' : Char) ∉ ('/' :: '/' :: l) := by
    intro hc
    rcases List.mem_cons.mp hc with h1 | hc
    · exact absurd h1 (by decide)
    rcases List.mem_cons.mp hc with h1 | hc
    · exact absurd h1 (by decide)
    · exact hl1 hc
  have hn2 : ('(' : Char) ∉ (':' :: n) := by
    intro hc
    rcases List.mem_cons.mp hc with h1 | hc
    · exact absurd h1 (by decide)
    · exact hn hc
  have hnp : ('(' : Char) ∉ ('/' :: '/' :: l) ++ ':' :: n := by
    intro hc
    rcases List.mem_append.mp hc with hc | hc
    · rcases List.mem_cons.mp hc with h1 | hc
      · exact absurd h1 (by decide)
      rcases List.mem_cons.mp hc with h1 | hc
      · exact absurd h1 (by decide)
      · exact hl2 hc
    · exact hn2 hc
  have hlen : ('/' :: '/' :: l).length = l.length + 2 := by simp
  have hfc : charFind ':' (('/' :: '/' :: l) ++ ':' :: n) = some (l.length + 2) := by
    rw [charFind_append_cons _ _ _ hxs, hlen]
  have hfp : charFind '(' (('/' :: '/' :: l) ++ ':' :: n) = none := charFind_eq_none hnp
  have hff : findFirstOf (('/' :: '/' :: l) ++ ':' :: n) = some (l.length + 2) := by
    unfold findFirstOf
    rw [hfc, hfp]
  have htake : (('/' :: '/' :: l) ++ ':' :: n).take (l.length + 2) = '/' :: '/' :: l := by
    have := List.take_left ('/' :: '/' :: l) (':' :: n)
    rwa [hlen] at this
  have hdrop : (('/' :: '/' :: l) ++ ':' :: n).drop (l.length + 2) = ':' :: n := by
    have := List.drop_left ('/' :: '/' :: l) (':' :: n)
    rwa [hlen] at this
  have hffrom : charFindFrom '(' (('/' :: '/' :: l) ++ ':' :: n) (l.length + 2) = none := by
    unfold charFindFrom
    rw [hdrop, charFind_eq_none hn2]
    rfl
  have hdrop3 : (('/' :: '/' :: l) ++ ':' :: n).drop (l.length + 2 + 1) = n := by
    have := @List.drop_append Char ('/' :: '/' :: l) (':' :: n) 1
    rw [hlen] at this
    simpa using this
  rw [hcs]
  unfold parseGnName
  rw [hff]
  simp only []
  rw [if_neg (by omega : ¬ (l.length + 2 = 0))]
  rw [hffrom]
  simp only []
  rw [htake, hdrop3]
  rfl

theorem parseGnName_tool (l n tc : List Char) (hl1 : ':' ∉ l) (hl2 : '(' ∉ l)
    (hn : '(' ∉ n) :
    parseGnName ('/' :: '/' :: (l ++ ':' :: (n ++ '(' :: (tc ++ [')'])))) =
      .ok (l, some n, some tc) := by
  have hxs : (':' : Char) ∉ ('/' :: '/' :: l) := by
    intro hc
    rcases List.mem_cons.mp hc with h1 | hc
    · exact absurd h1 (by decide)
    rcases List.mem_cons.mp hc with h1 | hc
    · exact absurd h1 (by decide)
    · exact hl1 hc
  have hn2 : ('(' : Char) ∉ (':' :: n) := by
    intro hc
    rcases List.mem_cons.mp hc with h1 | hc
    · exact absurd h1 (by decide)
    · exact hn hc
  have hP : ('(' : Char) ∉ ('/' :: '/' :: l) ++ ':' :: n := by
    intro hc
    rcases List.mem_append.mp hc with hc | hc
    · rcases List.mem_cons.mp hc with h1 | hc
      · exact absurd h1 (by decide)
      rcases List.mem_cons.mp hc with h1 | hc
      · exact absurd h1 (by decide)
      · exact hl2 hc
    · exact hn2 hc
  have hlen : ('/' :: '/' :: l).length = l.length + 2 := by simp
  have hPlen : (('/' :: '/' :: l) ++ ':' :: n).length = l.length + n.length + 3 := by
    simp only [List.length_append, List.length_cons]
    omega
  have hcs1 : '/' :: '/' :: (l ++ ':' :: (n ++ '(' :: (tc ++ [')']))) =
      ('/' :: '/' :: l) ++ ':' :: (n ++ '(' :: (tc ++ [')'])) := by simp
  have hcs2 : ('/' :: '/' :: l) ++ ':' :: (n ++ '(' :: (tc ++ [')'])) =
      (('/' :: '/' :: l) ++ ':' :: n) ++ '(' :: (tc ++ [')']) := by simp
  have hfc : charFind ':' (('/' :: '/' :: l) ++ ':' :: (n ++ '(' :: (tc ++ [')']))) =
      some (l.length + 2) := by
    rw [charFind_append_cons _ _ _ hxs, hlen]
  have hfp : charFind '(' (('/' :: '/' :: l) ++ ':' :: (n ++ '(' :: (tc ++ [')']))) =
      some (l.length + n.length + 3) := by
    rw [hcs2, charFind_append_cons _ _ _ hP, hPlen]
  have hff : findFirstOf (('/' :: '/' :: l) ++ ':' :: (n ++ '(' :: (tc ++ [')']))) =
      some (l.length + 2) := by
    unfold findFirstOf
    rw [hfc, hfp]
    simp only []
    congr 1
    omega
  have htake : (('/' :: '/' :: l) ++ ':' :: (n ++ '(' :: (tc ++ [')']))).take (l.length + 2) =
      '/' :: '/' :: l := by
    have := List.take_left ('/' :: '/' :: l) (':' :: (n ++ '(' :: (tc ++ [')'])))
    rwa [hlen] at this
  have hdrop : (('/' :: '/' :: l) ++ ':' :: (n ++ '(' :: (tc ++ [')']))).drop (l.length + 2) =
      ':' :: (n ++ '(' :: (tc ++ [')'])) := by
    have := List.drop_left ('/' :: '/' :: l) (':' :: (n ++ '(' :: (tc ++ [')'])))
    rwa [hlen] at this
  have hcolon : (':' :: (n ++ '(' :: (tc ++ [')']))) =
      (':' :: n) ++ '(' :: (tc ++ [')']) := by simp
  have hffrom : charFindFrom '(' (('/' :: '/' :: l) ++ ':' :: (n ++ '(' :: (tc ++ [')'])))
      (l.length + 2) = some (n.length + 1 + (l.length + 2)) := by
    unfold charFindFrom
    rw [hdrop, hcolon, charFind_append_cons _ _ _ hn2]
    simp
  have htake2 : (('/' :: '/' :: l) ++ ':' :: (n ++ '(' :: (tc ++ [')']))).take
      (n.length + 1 + (l.length + 2)) = ('/' :: '/' :: l) ++ ':' :: n := by
    rw [hcs2]
    have h1 : n.length + 1 + (l.length + 2) = (('/' :: '/' :: l) ++ ':' :: n).length := by
      rw [hPlen]; omega
    rw [h1]
    exact List.take_left _ _
  have hname : ((('/' :: '/' :: l) ++ ':' :: n).drop (l.length + 2 + 1)) = n := by
    have := @List.drop_append Char ('/' :: '/' :: l) (':' :: n) 1
    rw [hlen] at this
    simpa using this
  have hlast : (('/' :: '/' :: l) ++ ':' :: (n ++ '(' :: (tc ++ [')']))).getLast? =
      some ')' := by
    have h1 : ('/' :: '/' :: l) ++ ':' :: (n ++ '(' :: (tc ++ [')'])) =
        ((('/' :: '/' :: l) ++ ':' :: (n ++ '(' :: tc))) ++ [')'] := by simp
    rw [h1, List.getLast?_concat]
  have hdroptc : ((('/' :: '/' :: l) ++ ':' :: (n ++ '(' :: (tc ++ [')']))).drop
      (n.length + 1 + (l.length + 2) + 1)).dropLast = tc := by
    have h1 : ('/' :: '/' :: l) ++ ':' :: (n ++ '(' :: (tc ++ [')'])) =
        (((('/' :: '/' :: l) ++ ':' :: n) ++ ['('])) ++ (tc ++ [')']) := by simp
    have h2 : n.length + 1 + (l.length + 2) + 1 =
        ((('/' :: '/' :: l) ++ ':' :: n) ++ ['(']).length := by
      simp only [List.length_append, List.length_cons, List.length_nil]
      omega
    rw [h1, h2, List.drop_left, List.dropLast_concat]
  rw [hcs1]
  unfold parseGnName
  rw [hff]
  simp only []
  rw [if_neg (by omega : ¬ (l.length + 2 = 0))]
  rw [hffrom]
  simp only []
  rw [if_pos (by omega : l.length + 2 < n.length + 1 + (l.length + 2))]
  rw [if_pos hlast]
  rw [htake, htake2, hname, hdroptc]
  rfl

theorem assembleCmakeName_ok (l n : List Char) (t? : Option (List Char))
    (hne : ¬ (l = [] ∧ n = [])) :
    assembleCmakeName l (some n) t? = .ok (amendCombine l n t?) := by
  unfold assembleCmakeName
  have hcond : ¬ (l = [] ∧ (some n).getD [] = []) := by simpa using hne
  rw [if_neg hcond]
  by_cases hl : l = []
  · subst hl
    rfl
  · rw [if_pos hl]
    rfl

theorem getCmakeTargetName_plain (l n : List Char) (hl1 : ':' ∉ l) (hl2 : '(' ∉ l)
    (hn : '(' ∉ n) (hne : ¬ (l = [] ∧ n = [])) :
    getCmakeTargetName (String.mk ('/' :: '/' :: (l ++ ':' :: n))) =
      .ok (String.mk (amendCombine l n none)) := by
  unfold getCmakeTargetName
  have hlist : (String.mk ('/' :: '/' :: (l ++ ':' :: n))).toList =
      '/' :: '/' :: (l ++ ':' :: n) := rfl
  rw [hlist, parseGnName_plain l n hl1 hl2 hn]
  simp only [bind, Except.bind]
  rw [assembleCmakeName_ok l n none hne]
  rfl

theorem getCmakeTargetName_tool (l n tc : List Char) (hl1 : ':' ∉ l) (hl2 : '(' ∉ l)
    (hn : '(' ∉ n) (hne : ¬ (l = [] ∧ n = [])) :
    getCmakeTargetName (String.mk ('/' :: '/' :: (l ++ ':' :: (n ++ '(' :: (tc ++ [')']))))) =
      .ok (String.mk (amendCombine l n (some tc))) := by
  unfold getCmakeTargetName
  have hlist : (String.mk ('/' :: '/' :: (l ++ ':' :: (n ++ '(' :: (tc ++ [')']))))).toList =
      '/' :: '/' :: (l ++ ':' :: (n ++ '(' :: (tc ++ [')']))) := rfl
  rw [hlist, parseGnName_tool l n tc hl1 hl2 hn]
  simp only [bind, Except.bind]
  rw [assembleCmakeName_ok l n (some tc) hne]
  rfl

/-! ## Divergence of the flatten recursion on cyclic `flatten_deps` -/

theorem podSelf_diverges :
    ∀ f : Nat, (∀ s : SubspecM, subspecStep podSelfG f (.flat s ["A"]) = .error .outOfFuel) ∧
      subspecStep podSelfG f (.mk "A") = .error .outOfFuel := by
  intro f
  induction f with
  | zero => exact ⟨fun s => rfl, rfl⟩
  | succ f ih =>
    constructor
    · intro s
      have h1 : subspecStep podSelfG (f + 1) (.flat s ["A"]) =
          (subspecStep podSelfG f (.mk "A")).bind
            (fun sub => (mergeFlatten s sub).bind
              (fun merged => subspecStep podSelfG f (.flat merged []))) := rfl
      rw [h1, ih.2]
      rfl
    · have h1 : subspecStep podSelfG (f + 1) (.mk "A") =
          (subspecStep podSelfG f (.flat podSelfBase ["A"])).bind
            (fun flattened => .ok { flattened with flattenDeps := ["A"] }) := rfl
      rw [h1, ih.1 podSelfBase]
      rfl

theorem podTrans_diverges :
    ∀ f : Nat,
      (∀ s : SubspecM, subspecStep podTransG f (.flat s ["B"]) = .error .outOfFuel) ∧
      (∀ s : SubspecM, subspecStep podTransG f (.flat s ["A"]) = .error .outOfFuel) ∧
      subspecStep podTransG f (.mk "A") = .error .outOfFuel ∧
      subspecStep podTransG f (.mk "B") = .error .outOfFuel := by
  intro f
  induction f with
  | zero => exact ⟨fun s => rfl, fun s => rfl, rfl, rfl⟩
  | succ f ih =>
    refine ⟨?_, ?_, ?_, ?_⟩
    · intro s
      have h1 : subspecStep podTransG (f + 1) (.flat s ["B"]) =
          (subspecStep podTransG f (.mk "B")).bind
            (fun sub => (mergeFlatten s sub).bind
              (fun merged => subspecStep podTransG f (.flat merged []))) := rfl
      rw [h1, ih.2.2.2]
      rfl
    · intro s
      have h1 : subspecStep podTransG (f + 1) (.flat s ["A"]) =
          (subspecStep podTransG f (.mk "A")).bind
            (fun sub => (mergeFlatten s sub).bind
              (fun merged => subspecStep podTransG f (.flat merged []))) := rfl
      rw [h1, ih.2.2.1]
      rfl
    · have h1 : subspecStep podTransG (f + 1) (.mk "A") =
          (subspecStep podTransG f (.flat podTransBaseA ["B"])).bind
            (fun flattened => .ok { flattened with flattenDeps := ["B"] }) := rfl
      rw [h1, ih.1 podTransBaseA]
      rfl
    · have h1 : subspecStep podTransG (f + 1) (.mk "B") =
          (subspecStep podTransG f (.flat podTransBaseB ["A"])).bind
            (fun flattened => .ok { flattened with flattenDeps := ["A"] }) := rfl
      rw [h1, ih.2.1 podTransBaseB]
      rfl

/-! ## Kind characterizations -/

theorem barrierKind_iff (k : String) :
    (∃ ct, cmake_target_types k = some ct ∧ ct.is_dependency_barrier = true) ↔
      (k = "executable" ∨ k = "loadable_module" ∨ k = "shared_library") := by
  constructor
  · rintro ⟨ct, hct, hb⟩
    unfold cmake_target_types at hct
    split at hct <;> simp_all [CMakeTargetType.custom]
    all_goals (cases hct; simp_all)
  · rintro (rfl | rfl | rfl) <;> exact ⟨_, rfl, rfl⟩

theorem matchBarrier_eq (o : Option CMakeTargetType) :
    ((match o with | some ct => ct.is_dependency_barrier | none => false) = true) ↔
      (∃ ct, o = some ct ∧ ct.is_dependency_barrier = true) := by
  cases o <;> simp

theorem barrierCond_iff (t : TargetM) (h : t.cmakeType = t.gnType.bind cmake_target_types) :
    barrierCond t = true ↔ (t.isCmakeTarget = true ∨
      t.gnType ∈ [some "executable", some "loadable_module", some "shared_library"]) := by
  unfold barrierCond
  rw [Bool.or_eq_true, matchBarrier_eq, h]
  cases hg : t.gnType with
  | none => simp
  | some k =>
    have hbind : (some k).bind cmake_target_types = cmake_target_types k := rfl
    rw [hbind, barrierKind_iff]
    simp

theorem shouldCheck_iff (t : TargetM) :
    shouldCheckSourcesTarget t = true ↔
      t.gnType ∈ [some "executable", some "loadable_module", some "shared_library",
                  some "static_library", some "source_set", some "group"] := by
  unfold shouldCheckSourcesTarget
  cases t.gnType <;> simp

theorem isUsefulTarget_false_iff (t : TargetM) :
    isUsefulTarget t = false ↔
      (shouldCheckSourcesTarget t = true ∧
       ∀ s ∈ t.sources, pyEndsWith s ".h" = true ∨ pyEndsWith s ".hpp" = true) := by
  unfold isUsefulTarget
  by_cases hc : shouldCheckSourcesTarget t
  · rw [if_neg (by simp [hc])]
    by_cases hlen : t.sources.length > 0
    · rw [if_pos hlen]
      simp only [hc, true_and, List.any_eq_false]
      constructor
      · intro hall s hs
        have := hall s hs
        simp only [decide_eq_true_eq, not_and_or, not_not] at this
        rcases this with h1 | h1
        · exact Or.inl (by simpa using h1)
        · exact Or.inr (by simpa using h1)
      · intro hall s hs
        have := hall s hs
        simp only [decide_eq_true_eq, not_and_or, not_not]
        rcases this with h1 | h1
        · exact Or.inl (by simpa using h1)
        · exact Or.inr (by simpa using h1)
    · rw [if_neg hlen]
      have hnil : t.sources = [] := by
        cases hs : t.sources
        · rfl
        · rw [hs] at hlen; simp at hlen
      simp [hc, hnil]
  · rw [if_pos (by simpa using hc)]
    simp [hc]

/-! ## Package union as sets -/

theorem pyListUnion_toFinset (a b : List String) :
    (pyListUnion a b).toFinset = a.toFinset ∪ b.toFinset := by
  ext x
  simp [pyListUnion, List.mem_dedup, List.mem_toFinset, List.mem_append, Finset.mem_union]

theorem find?_map_ne (d : List (String × Bool × List String)) (k k' : String)
    (v : Bool × List String) (hne : k' ≠ k) :
    (d.map (fun p => if p.1 = k then (k, v) else p)).find? (fun p => p.1 = k') =
      d.find? (fun p => p.1 = k') := by
  induction d with
  | nil => rfl
  | cons p d ih =>
    by_cases hp : p.1 = k
    · rw [List.map_cons, if_pos hp,
        List.find?_cons_of_neg _ (by simp; exact Ne.symm hne),
        List.find?_cons_of_neg _ (by simp [hp]; exact Ne.symm hne)]
      exact ih
    · rw [List.map_cons, if_neg hp]
      by_cases hpk : p.1 = k'
      · rw [List.find?_cons_of_pos _ (by simp [hpk]),
          List.find?_cons_of_pos _ (by simp [hpk])]
      · rw [List.find?_cons_of_neg _ (by simp [hpk]),
          List.find?_cons_of_neg _ (by simp [hpk])]
        exact ih

theorem find?_map_eq (d : List (String × Bool × List String)) (k : String)
    (v : Bool × List String)
    (h : (d.find? (fun p => p.1 = k)).isSome) :
    (d.map (fun p => if p.1 = k then (k, v) else p)).find? (fun p => p.1 = k) =
      some (k, v) := by
  induction d with
  | nil => simp [List.find?] at h
  | cons p d ih =>
    by_cases hp : p.1 = k
    · rw [List.map_cons, if_pos hp, List.find?_cons_of_pos _ (by simp)]
    · rw [List.find?_cons_of_neg _ (by simp [hp])] at h
      rw [List.map_cons, if_neg hp, List.find?_cons_of_neg _ (by simp [hp])]
      exact ih h

theorem pkgLookup_insert (d : List (String × Bool × List String)) (k : String)
    (v : Bool × List String) (k' : String) :
    pkgLookup (dictInsertPkg d k v) k' =
      if k' = k then some v else pkgLookup d k' := by
  unfold dictInsertPkg pkgLookup
  by_cases hpres : (d.find? (fun p => p.1 = k)).isSome
  · rw [if_pos hpres]
    by_cases hk : k' = k
    · subst hk
      rw [if_pos rfl, find?_map_eq d k' v hpres]
      rfl
    · rw [if_neg hk, find?_map_ne d k k' v hk]
  · rw [if_neg hpres]
    by_cases hk : k' = k
    · subst hk
      rw [if_pos rfl, List.find?_append]
      have hnone : d.find? (fun p => p.1 = k') = none := by
        cases hd : d.find? (fun p => p.1 = k') with
        | none => rfl
        | some x => rw [hd] at hpres; simp at hpres
      rw [hnone, List.find?_cons_of_pos _ (by simp)]
      rfl
    · rw [if_neg hk, List.find?_append,
        List.find?_cons_of_neg _ (by simp; exact Ne.symm hk)]
      cases hd : d.find? (fun p => p.1 = k') with
      | some x => rfl
      | none => rfl

theorem pkgView_mergeStep (acc : List (String × Bool × List String))
    (p : String × Bool × List String) (k : String) :
    pkgView (mergeStep acc p) k =
      if k = p.1 then optMergeView (pkgView acc p.1) (some (p.2.1, p.2.2.toFinset))
      else pkgView acc k := by
  unfold mergeStep
  cases hl : pkgLookup acc p.1 with
  | none =>
    simp only []
    unfold pkgView
    rw [pkgLookup_insert]
    by_cases hk : k = p.1
    · subst hk
      rw [if_pos rfl, if_pos rfl]
      simp [pkgView, hl, optMergeView]
    · rw [if_neg hk, if_neg hk]
  | some old =>
    simp only []
    unfold pkgView
    rw [pkgLookup_insert]
    by_cases hk : k = p.1
    · subst hk
      rw [if_pos rfl, if_pos rfl]
      simp only [pkgView, hl, Option.map_some', optMergeView, mergePkgEntry]
      rw [pyListUnion_toFinset]
    · rw [if_neg hk, if_neg hk]

theorem pkgLookup_eq_none_of_not_mem (l : List (String × Bool × List String))
    (k : String) (h : k ∉ l.map Prod.fst) : pkgLookup l k = none := by
  unfold pkgLookup
  rw [List.find?_eq_none.mpr]
  · rfl
  · intro p hp hpk
    simp at hpk
    exact h (by simp only [List.mem_map]; exact ⟨p, hp, hpk⟩)

theorem pkgView_foldl (l : List (String × Bool × List String))
    (acc : List (String × Bool × List String)) (k : String)
    (hnd : (l.map Prod.fst).Nodup) :
    pkgView (l.foldl mergeStep acc) k =
      optMergeView (pkgView acc k) (pkgView l k) := by
  induction l generalizing acc with
  | nil =>
    simp only [List.foldl_nil]
    have hnil : pkgView ([] : List (String × Bool × List String)) k = none := rfl
    rw [hnil]
    cases pkgView acc k <;> rfl
  | cons p l ih =>
    simp only [List.map_cons, List.nodup_cons] at hnd
    simp only [List.foldl_cons]
    rw [ih _ hnd.2]
    by_cases hk : k = p.1
    · subst hk
      rw [pkgView_mergeStep, if_pos rfl]
      have hlnone : pkgView l p.1 = none := by
        unfold pkgView
        rw [pkgLookup_eq_none_of_not_mem l p.1 hnd.1]
        rfl
      rw [hlnone]
      have hhead : pkgView (p :: l) p.1 = some (p.2.1, p.2.2.toFinset) := by
        unfold pkgView pkgLookup
        rw [List.find?_cons_of_pos _ (by simp)]
        rfl
      rw [hhead]
      cases pkgView acc p.1 <;> rfl
    · rw [pkgView_mergeStep, if_neg hk]
      have hcons : pkgView (p :: l) k = pkgView l k := by
        unfold pkgView pkgLookup
        rw [List.find?_cons_of_neg _ (by simp; exact Ne.symm hk)]
      rw [hcons]

theorem optMergeView_comm (a b : Option (Bool × Finset String)) :
    optMergeView a b = optMergeView b a := by
  cases a with
  | none => cases b <;> rfl
  | some x =>
    cases b with
    | none => rfl
    | some y =>
      simp only [optMergeView]
      rw [Bool.or_comm, Finset.union_comm]

theorem optMergeView_assoc (a b c : Option (Bool × Finset String)) :
    optMergeView (optMergeView a b) c = optMergeView a (optMergeView b c) := by
  cases a with
  | none => cases b <;> cases c <;> rfl
  | some x =>
    cases b with
    | none => cases c <;> rfl
    | some y =>
      cases c with
      | none => rfl
      | some z =>
        simp only [optMergeView]
        rw [Bool.or_assoc, Finset.union_assoc]

theorem addDepsPackages_view (st : WalkState) (t : TargetM) (k : String)
    (hnd : (t.depsPackages.map Prod.fst).Nodup) :
    pkgView ((addDepsPackages st t).depsPackages) k =
      optMergeView (pkgView st.depsPackages k) (pkgView t.depsPackages k) := by
  have hfold : (addDepsPackages st t).depsPackages =
      t.depsPackages.foldl mergeStep st.depsPackages := rfl
  rw [hfold]
  exact pkgView_foldl t.depsPackages st.depsPackages k hnd

theorem addDepsPackages_view_comm (st : WalkState) (t1 t2 : TargetM) (k : String)
    (h1 : (t1.depsPackages.map Prod.fst).Nodup)
    (h2 : (t2.depsPackages.map Prod.fst).Nodup) :
    pkgView ((addDepsPackages (addDepsPackages st t1) t2).depsPackages) k =
      pkgView ((addDepsPackages (addDepsPackages st t2) t1).depsPackages) k := by
  rw [addDepsPackages_view _ _ _ h2, addDepsPackages_view _ _ _ h1,
      addDepsPackages_view _ _ _ h1, addDepsPackages_view _ _ _ h2,
      optMergeView_assoc, optMergeView_assoc,
      optMergeView_comm (pkgView t1.depsPackages k) (pkgView t2.depsPackages k)]

/-! ## `gn_to_cmake` control flow -/

theorem mkTarget_missing (pr : CMakeProject) (n : String)
    (h : lookupRaw pr.targets n = none) : mkTarget pr n = .error (.unknownTarget n) := by
  unfold mkTarget
  rw [h]

theorem gnToCmake_cons_error {pr : CMakeProject} {fuel : Nat} {r : String}
    {rest : List String} {e : Err} (h : processRoot pr fuel [] r = .error e) :
    gnToCmake pr fuel (r :: rest) = .error e := by
  unfold gnToCmake
  rw [List.foldlM_cons, h]
  rfl

theorem gnToCmake_cons_skip {pr : CMakeProject} {fuel : Nat} {r : String}
    {rest : List String} (h : lookupRaw pr.targets r = none) :
    gnToCmake pr fuel (r :: rest) = gnToCmake pr fuel rest := by
  unfold gnToCmake
  rw [List.foldlM_cons]
  have hp : processRoot pr fuel [] r = .ok [] := by
    unfold processRoot
    rw [h]
  rw [hp]
  rfl

/-! ## Claim theorems -/

/-- C1: for every finite dependency graph, including graphs whose `deps`
edges form a cycle, `resolve(root)` terminates (the fuel chosen from the
graph size never runs out); a node id already in the visited memo is never
re-walked (the walk returns the state unchanged and the caller reuses the
memoized `dep_actions` entry); and each walked useful non-barrier node is
added to `sourceUnits` exactly once (the source list is duplicate-free and
every walked useful non-barrier non-root node is in it).  On the concrete
cycle `A -> B -> A` both nodes end up in `sourceUnits` exactly once. -/
theorem claim_C1_resolve_cycle_safe :
    (∀ (pr : CMakeProject) (rootName : String),
      resolve pr rootName ≠ .error .outOfFuel) ∧
    (∀ (pr : CMakeProject) (f : Nat) (st : WalkState) (t : TargetM),
      t.gnName ∈ st.visited → walk pr (f + 1) (.node t) st = .ok st) ∧
    (∀ (pr : CMakeProject) (rootName : String) (st : WalkState),
      resolve pr rootName = .ok st →
        st.sources.Nodup ∧
        ∀ n ∈ st.visited, n ≠ rootName →
          ∀ t, mkTarget pr n = .ok t → barrierCond t = false →
            isUsefulTarget t = true → n ∈ st.sources) ∧
    ((resolve cycPr "//a:A").map (fun st => (st.sources, st.binaries)) =
      .ok (["//a:A", "//b:B"], [])) := by
  refine ⟨resolve_ne_outOfFuel, walk_memo, ?_, by decide⟩
  intro pr rootName st h
  obtain ⟨hInv, -, -⟩ := resolve_ok_inv h
  obtain ⟨h1, -, -, -, -, -, -, h8⟩ := hInv
  refine ⟨h1, ?_⟩
  intro n hn hne t hmk hb hu
  obtain ⟨u, hu1, -, hu3⟩ := h8 n hn hne
  have : t = u := by
    rw [hmk] at hu1
    cases hu1
    rfl
  subst this
  exact hu3 hb hu

/-- C1 witness: the theorem applied at the cyclic fixture: termination, a
memo hit returning the state unchanged, and duplicate-freeness of the
computed source set. -/
theorem claim_C1_witness :
    resolve cycPr "//a:A" ≠ .error .outOfFuel ∧
    walk cycPr 7 (.node walkMemoT) walkMemoSt = .ok walkMemoSt ∧
    cycResolvedState.sources.Nodup :=
  ⟨claim_C1_resolve_cycle_safe.1 cycPr "//a:A",
   claim_C1_resolve_cycle_safe.2.1 cycPr 6 walkMemoSt walkMemoT (by decide),
   (claim_C1_resolve_cycle_safe.2.2.1 cycPr "//a:A" cycResolvedState (by decide)).1⟩

/-- C2: in every successful walk, a fresh barrier node (flagged
`is_cmake_target` or of a dependency-barrier kind) is added to
`barrierUnits` with its deps left unexpanded (the returned state differs
only by the memo entry and the barrier entry); every non-root node of the
result is classified by that same condition — members of `barrierUnits`
satisfy it, members of `sourceUnits` refute it, and every walked node
satisfying it lands in `barrierUnits`; the condition is equivalent to
`is_cmake_target` or kind in executable / loadable_module / shared_library;
the two sets are disjoint; and on the concrete graph `R -> B -> C` with `B`
a shared library, `C` appears in neither set. -/
theorem claim_C2_barrier_classification :
    (∀ (pr : CMakeProject) (f : Nat) (st : WalkState) (t : TargetM),
      t.gnName ∉ st.visited → barrierCond t = true →
      walk pr (f + 1) (.node t) st =
        .ok { st with visited := t.gnName :: st.visited,
                      binaries := setAdd st.binaries t.gnName }) ∧
    (∀ (t : TargetM), t.cmakeType = t.gnType.bind cmake_target_types →
      (barrierCond t = true ↔ (t.isCmakeTarget = true ∨
        t.gnType ∈ [some "executable", some "loadable_module", some "shared_library"]))) ∧
    (∀ (pr : CMakeProject) (n : String) (t : TargetM), mkTarget pr n = .ok t →
      t.cmakeType = t.gnType.bind cmake_target_types) ∧
    (∀ (pr : CMakeProject) (rootName : String) (st : WalkState),
      resolve pr rootName = .ok st →
        (∀ n ∈ st.binaries, n ≠ rootName →
          ∃ t, mkTarget pr n = .ok t ∧ barrierCond t = true) ∧
        (∀ n ∈ st.sources, n ≠ rootName →
          ∃ t, mkTarget pr n = .ok t ∧ barrierCond t = false ∧ isUsefulTarget t = true) ∧
        (∀ n ∈ st.visited, n ≠ rootName →
          ∀ t, mkTarget pr n = .ok t → barrierCond t = true → n ∈ st.binaries) ∧
        (∀ n ∈ st.sources, n ∉ st.binaries)) ∧
    ((resolve opacPr "//r:R").map
      (fun st => (st.sources, st.binaries,
        decide ("//c:C" ∈ st.sources), decide ("//c:C" ∈ st.binaries))) =
      .ok (["//r:R"], ["//b:B"], false, false)) := by
  refine ⟨walk_barrier_step, barrierCond_iff, fun _ _ _ h => mkTarget_cmakeType h,
    ?_, by decide⟩
  intro pr rootName st h
  obtain ⟨hInv, -, -⟩ := resolve_ok_inv h
  obtain ⟨-, -, -, -, h5, h6, h7, h8⟩ := hInv
  refine ⟨h6, h7, ?_, h5⟩
  intro n hn hne t hmk hb
  obtain ⟨u, hu1, hu2, -⟩ := h8 n hn hne
  have : t = u := by
    rw [hmk] at hu1
    cases hu1
    rfl
  subst this
  exact hu2 hb

/-- C2 witness: the barrier step applied to a concrete fresh shared-library
node, and the classification applied to the resolved opacity fixture. -/
theorem claim_C2_witness :
    walk opacPr 4 (.node barrierWitnessT) walkEmptySt =
      .ok { walkEmptySt with visited := ["//b:B"], binaries := ["//b:B"] } ∧
    (barrierCond barrierWitnessT = true ↔ (barrierWitnessT.isCmakeTarget = true ∨
      barrierWitnessT.gnType ∈
        [some "executable", some "loadable_module", some "shared_library"])) :=
  ⟨claim_C2_barrier_classification.1 opacPr 3 walkEmptySt barrierWitnessT
      (by decide) (by decide),
   claim_C2_barrier_classification.2.1 barrierWitnessT (by decide)⟩

/-- C3: the usefulness test returns not-useful exactly for the checkable
kinds (executable, loadable_module, shared_library, static_library,
source_set, group) whose sources are empty or all end in `.h`/`.hpp`, and
useful for every other kind; consequently a static_library whose only source
is `a.h` is excluded from `sourceUnits` while the same node with
`["a.h", "a.cc"]` is included. -/
theorem claim_C3_usefulness :
    (∀ t : TargetM, isUsefulTarget t = false ↔
      (shouldCheckSourcesTarget t = true ∧
       ∀ s ∈ t.sources, pyEndsWith s ".h" = true ∨ pyEndsWith s ".hpp" = true)) ∧
    (∀ t : TargetM, shouldCheckSourcesTarget t = true ↔
      t.gnType ∈ [some "executable", some "loadable_module", some "shared_library",
                  some "static_library", some "source_set", some "group"]) ∧
    ((resolve usefulPrA "//r:R").map
      (fun st => (st.sources, decide ("//l:L" ∈ st.sources))) =
      .ok (["//r:R"], false)) ∧
    ((resolve usefulPrB "//r:R").map
      (fun st => decide ("//l:L" ∈ st.sources)) = .ok true) :=
  ⟨isUsefulTarget_false_iff, shouldCheck_iff, by decide, by decide⟩

/-- C3 witness: the characterization applied to a header-only static library
(not useful) and to an action-kind node (always useful). -/
theorem claim_C3_witness :
    isUsefulTarget headerOnlyT = false ∧ isUsefulTarget actionKindT ≠ false :=
  ⟨(claim_C3_usefulness.1 headerOnlyT).mpr ⟨by decide, by decide⟩,
   fun hc => by
    have := (claim_C3_usefulness.1 actionKindT).mp hc
    exact absurd this.1 (by decide)⟩

/-- C4: package-requirement aggregation is a commutative and associative
merge on the set view (flags are OR-ed, search-path sets are unioned), and
resolving a root whose two deps both declare `Foo` yields — in either
visitation order — a single `Foo` entry whose flag is the OR and whose
search-path set (and the walk's linked-module set) is the same union.
In general, for a visited target whose package dict has no duplicate keys,
`add_deps_packages` acts per key as the optional merge `optMergeView` of
the root's entry with the target's entry, and folding two such targets in
either order leaves every key's merged view the same. -/
theorem claim_C4_package_merge :
    (∀ e1 e2 : Bool × List String,
      (mergePkgEntry e1 e2).1 = (mergePkgEntry e2 e1).1 ∧
      (mergePkgEntry e1 e2).2.toFinset = (mergePkgEntry e2 e1).2.toFinset) ∧
    (∀ e1 e2 e3 : Bool × List String,
      (mergePkgEntry (mergePkgEntry e1 e2) e3).1 =
        (mergePkgEntry e1 (mergePkgEntry e2 e3)).1 ∧
      (mergePkgEntry (mergePkgEntry e1 e2) e3).2.toFinset =
        (mergePkgEntry e1 (mergePkgEntry e2 e3)).2.toFinset) ∧
    ((resolve pkgPr1 "//r:R").map (fun st => st.depsPackages) =
      .ok [("Foo", true, ["${ROOT_PATH}/p1", "${ROOT_PATH}/p2"])]) ∧
    ((resolve pkgPr2 "//r:R").map (fun st => st.depsPackages) =
      .ok [("Foo", true, ["${ROOT_PATH}/p2", "${ROOT_PATH}/p1"])]) ∧
    (["${ROOT_PATH}/p1", "${ROOT_PATH}/p2"] : List String).toFinset =
      (["${ROOT_PATH}/p2", "${ROOT_PATH}/p1"] : List String).toFinset ∧
    ((resolve pkgPr1 "//r:R").map (fun st => st.linkModules.toFinset) =
      (resolve pkgPr2 "//r:R").map (fun st => st.linkModules.toFinset)) ∧
    (∀ (st : WalkState) (t : TargetM) (k : String),
      (t.depsPackages.map Prod.fst).Nodup →
      pkgView ((addDepsPackages st t).depsPackages) k =
        optMergeView (pkgView st.depsPackages k) (pkgView t.depsPackages k)) ∧
    (∀ (st : WalkState) (t1 t2 : TargetM) (k : String),
      (t1.depsPackages.map Prod.fst).Nodup →
      (t2.depsPackages.map Prod.fst).Nodup →
      pkgView ((addDepsPackages (addDepsPackages st t1) t2).depsPackages) k =
        pkgView ((addDepsPackages (addDepsPackages st t2) t1).depsPackages) k) := by
  refine ⟨?_, ?_, by decide, by decide, by decide, by decide,
    fun st t k h => addDepsPackages_view st t k h,
    fun st t1 t2 k h1 h2 => addDepsPackages_view_comm st t1 t2 k h1 h2⟩
  · intro e1 e2
    constructor
    · exact Bool.or_comm e1.1 e2.1
    · unfold mergePkgEntry
      rw [pyListUnion_toFinset, pyListUnion_toFinset]
      exact Finset.union_comm _ _
  · intro e1 e2 e3
    constructor
    · exact Bool.or_assoc e1.1 e2.1 e3.1
    · unfold mergePkgEntry
      rw [pyListUnion_toFinset, pyListUnion_toFinset,
          pyListUnion_toFinset, pyListUnion_toFinset]
      exact Finset.union_assoc _ _ _

/-- C4 witness: the entry-level merge, the per-key fold characterization and
the order-independence of two merges, each applied at concrete inputs. -/
theorem claim_C4_witness :
    (mergePkgEntry (true, ["a"]) (false, ["b"])).1 =
      (mergePkgEntry (false, ["b"]) (true, ["a"])).1 ∧
    pkgView ((addDepsPackages pkgWitSt pkgWitT1).depsPackages) "Foo" =
      optMergeView (pkgView pkgWitSt.depsPackages "Foo")
        (pkgView pkgWitT1.depsPackages "Foo") ∧
    pkgView ((addDepsPackages (addDepsPackages pkgWitSt pkgWitT1)
        pkgWitT2).depsPackages) "Foo" =
      pkgView ((addDepsPackages (addDepsPackages pkgWitSt pkgWitT2)
        pkgWitT1).depsPackages) "Foo" :=
  ⟨(claim_C4_package_merge.1 (true, ["a"]) (false, ["b"])).1,
   claim_C4_package_merge.2.2.2.2.2.2.1 pkgWitSt pkgWitT1 "Foo" (by decide),
   claim_C4_package_merge.2.2.2.2.2.2.2 pkgWitSt pkgWitT1 pkgWitT2 "Foo"
     (by decide) (by decide)⟩

/-- C5 counterexample: the claim says a self-referential flatten fails with a
`CyclicFlatten` error; on the code, constructing the subspec for the
self-flattening node `A` is still recursing after one hundred nested
constructor calls (there is no cycle detection at all — the model's error
vocabulary, taken from the source's raised exceptions, has no cyclic-flatten
member, and the recursion exhausts any fuel). -/
theorem claim_C5_counterexample :
    mkSubspecTarget podSelfG 100 "A" = .error .outOfFuel :=
  (podSelf_diverges 100).2

/-- C5 amended: a node that lists itself among its `flatten_deps`, directly
or transitively, makes the flatten operation recurse without bound: for
every fuel value the construction is still unfinished (in Python the
process dies with `RecursionError`); there is no `CyclicFlatten` detection
and the self-reference is not silently accepted. -/
theorem claim_C5_flatten_divergence :
    ∀ f : Nat,
      mkSubspecTarget podSelfG f "A" = .error .outOfFuel ∧
      mkSubspecTarget podTransG f "A" = .error .outOfFuel :=
  fun f => ⟨(podSelf_diverges f).2, (podTrans_diverges f).2.2.1⟩

/-- C5 witness: the amended theorem applied at a concrete fuel value. -/
theorem claim_C5_witness :
    mkSubspecTarget podSelfG 37 "A" = .error .outOfFuel :=
  (claim_C5_flatten_divergence 37).1

/-- C6 counterexample: the claim says that after one root's resolution fails
on an absent dependency id, the remaining requested roots are still
processed; on the code the uncaught `KeyError` aborts the whole
`gn_to_cmake` loop: with roots `R1` (whose dep is missing) and `R2`, the run
ends in the error and `R2` — which resolves fine on its own — is never
processed. -/
theorem claim_C6_counterexample :
    gnToCmake missPr 5 ["//r:R1", "//r:R2"] = .error (.unknownTarget "//x:MISSING") ∧
    (gnToCmake missPr 5 ["//r:R2"]).map (fun l => l.map Prod.fst) = .ok ["//r:R2"] :=
  ⟨by decide, by decide⟩

/-- C6 amended: a dependency id absent from the graph store fails that
root's resolution with an error reporting the offending id (`KeyError`
after the lookup log), and the failure propagates out of the per-root loop,
so the remaining requested roots are NOT processed; only a requested ROOT id
absent from the graph is skipped with processing continuing. -/
theorem claim_C6_missing_dep_aborts :
    (∀ (pr : CMakeProject) (n : String), lookupRaw pr.targets n = none →
      mkTarget pr n = .error (.unknownTarget n)) ∧
    (∀ (pr : CMakeProject) (fuel : Nat) (r : String) (rest : List String) (e : Err),
      processRoot pr fuel [] r = .error e →
      gnToCmake pr fuel (r :: rest) = .error e) ∧
    (∀ (pr : CMakeProject) (fuel : Nat) (r : String) (rest : List String),
      lookupRaw pr.targets r = none →
      gnToCmake pr fuel (r :: rest) = gnToCmake pr fuel rest) ∧
    (resolve missPr "//r:R1" = .error (.unknownTarget "//x:MISSING")) :=
  ⟨mkTarget_missing, fun _ _ _ _ _ h => gnToCmake_cons_error h,
   fun _ _ _ _ h => gnToCmake_cons_skip h, by decide⟩

/-- C6 witness: the amended theorem applied at the missing-dep fixture. -/
theorem claim_C6_witness :
    mkTarget missPr "//x:MISSING" = .error (.unknownTarget "//x:MISSING") ∧
    gnToCmake missPr 5 ["//r:R1"] = .error (.unknownTarget "//x:MISSING") ∧
    gnToCmake missPr 5 ["//zz:Z", "//r:R1"] = .error (.unknownTarget "//x:MISSING") :=
  ⟨claim_C6_missing_dep_aborts.1 missPr "//x:MISSING" (by decide),
   claim_C6_missing_dep_aborts.2.1 missPr 5 "//r:R1" [] _ (by decide),
   by
    rw [claim_C6_missing_dep_aborts.2.2.1 missPr 5 "//zz:Z" ["//r:R1"] (by decide)]
    exact claim_C6_missing_dep_aborts.2.1 missPr 5 "//r:R1" [] _ (by decide)⟩

/-- C7: the version-map merge keeps the numerically higher version for a key
present in both maps — flattening subtrees declaring `Bar` at `1.2.0` and
`1.10.0` yields `1.10.0` (`1100 > 120`, numeric not lexicographic) — but the
claim's general key-by-key sentence fails on the code: a key present in only
one of the two non-empty maps makes the compare lambda apply
`string_to_int` (a regex over a string) to the bare int default `1000000`,
raising `TypeError` and aborting the whole flatten, instead of keeping the
present entry. -/
theorem claim_C7_version_merge :
    stringToInt "1.2.0" = .ok 120 ∧
    stringToInt "1.10.0" = .ok 1100 ∧
    mergeDependencyVersions [("Bar", .vstr "1.2.0")] [("Bar", .vstr "1.10.0")] =
      .ok [("Bar", .vstr "1.10.0")] ∧
    (mkSubspecTarget podVerG 10 "N").map (fun s => s.dependencyVersions) =
      .ok [("Bar", .vstr "1.10.0")] ∧
    mergeDependencyVersions [("Bar", .vstr "1.2.0"), ("Baz", .vstr "1.0")]
      [("Bar", .vstr "1.10.0")] = .error .typeError ∧
    mkSubspecTarget podVerBadG 10 "N" = .error .typeError :=
  ⟨by decide, by decide, by decide, by decide, by decide, by decide⟩

/-- C8 counterexample: on id `//foo/bar:bar` the code compresses the FINAL
path segment too (`foo/bar` becomes `f/b`, identifier `f__b_bar`), while the
spec's version — final segment kept whole — would produce `f/bar`, which
ends with `/bar` and therefore the identifier `f__bar`.  The two derivations
disagree. -/
theorem claim_C8_counterexample :
    getCmakeTargetName "//foo/bar:bar" = .ok "f__b_bar" ∧
    specDeriveCmakeIdentifier "//foo/bar:bar" = .ok "f__bar" ∧
    getCmakeTargetName "//foo/bar:bar" ≠ specDeriveCmakeIdentifier "//foo/bar:bar" :=
  ⟨by decide, by decide, by decide⟩

/-- C8 amended: the id is split on the first `:` or `(`; EVERY path segment
of the location — the final one included — is compressed to its first
character; the identifier is the compressed location when it ends with
`/name`, else location `_` name when the location is non-empty, else the
name; `--` plus the toolchain is appended when a non-empty toolchain suffix
is present; finally every character outside `[A-Za-z0-9_.+-]` becomes `__`.
Stated as: all-segment compression of `extract_initial_path`, the two parse
shapes, and the end-to-end equality with the amended-rule identifier
`amendCombine` on structured ids. -/
theorem claim_C8_identifier_derivation :
    (∀ parts : List (List Char), parts ≠ [] → (∀ p ∈ parts, '/' ∉ p) →
      extractInitialPath (joinSep '/' parts) =
        joinSep '/' (parts.map firstCharOrEmpty)) ∧
    (∀ l n : List Char, ':' ∉ l → '(' ∉ l → '(' ∉ n →
      parseGnName ('/' :: '/' :: (l ++ ':' :: n)) = .ok (l, some n, none)) ∧
    (∀ l n tc : List Char, ':' ∉ l → '(' ∉ l → '(' ∉ n →
      parseGnName ('/' :: '/' :: (l ++ ':' :: (n ++ '(' :: (tc ++ [')'])))) =
        .ok (l, some n, some tc)) ∧
    (∀ l n : List Char, ':' ∉ l → '(' ∉ l → '(' ∉ n → ¬ (l = [] ∧ n = []) →
      getCmakeTargetName (String.mk ('/' :: '/' :: (l ++ ':' :: n))) =
        .ok (String.mk (amendCombine l n none))) ∧
    (∀ l n tc : List Char, ':' ∉ l → '(' ∉ l → '(' ∉ n → ¬ (l = [] ∧ n = []) →
      getCmakeTargetName
          (String.mk ('/' :: '/' :: (l ++ ':' :: (n ++ '(' :: (tc ++ [')']))))) =
        .ok (String.mk (amendCombine l n (some tc)))) :=
  ⟨extractInitialPath_joinSep, parseGnName_plain, parseGnName_tool,
   fun l n h1 h2 h3 h4 => getCmakeTargetName_plain l n h1 h2 h3 h4,
   fun l n tc h1 h2 h3 h4 => getCmakeTargetName_tool l n tc h1 h2 h3 h4⟩

/-- C8 witness: the amended derivation applied at `//foo/bar:bar` and at a
toolchain-carrying id. -/
theorem claim_C8_witness :
    getCmakeTargetName (String.mk ('/' :: '/' :: ("foo/bar".toList ++ ':' :: "bar".toList))) =
      .ok (String.mk (amendCombine "foo/bar".toList "bar".toList none)) ∧
    getCmakeTargetName (String.mk ('/' :: '/' :: ("a/b".toList ++ ':' ::
        ("c".toList ++ '(' :: ("t".toList ++ [')'])))) ) =
      .ok (String.mk (amendCombine "a/b".toList "c".toList (some "t".toList))) :=
  ⟨claim_C8_identifier_derivation.2.2.2.1 "foo/bar".toList "bar".toList
      (by decide) (by decide) (by decide) (by decide),
   claim_C8_identifier_derivation.2.2.2.2 "a/b".toList "c".toList "t".toList
      (by decide) (by decide) (by decide) (by decide)⟩

/-- C9 counterexample: the claim says a node of unrecognized kind is skipped
with a diagnostic and never makes the resolution fail; on the code, walking
a dep of kind `rust_library` (absent from `cmake_target_types`, flag unset)
dereferences the `None` returned by `cmake_target_types.get` and the
resolution fails with `AttributeError`. -/
theorem claim_C9_counterexample :
    resolve unsupPr "//r:R" = .error .attributeError := by decide

/-- C9 amended: a dependency node whose kind is outside the recognized
closed set is treated as a barrier when its `is_cmake_target` flag is set
(the flag short-circuits the kind lookup); otherwise its first visit in the
walk fails the whole resolution with `AttributeError`
(`None.is_dependency_barrier`).  The skip-with-warning diagnostic exists
only in the Writer's `write_target`, not in the resolver. -/
theorem claim_C9_unknown_kind_crashes :
    (∀ (pr : CMakeProject) (f : Nat) (st : WalkState) (t : TargetM),
      t.gnName ∉ st.visited → t.isCmakeTarget = false → t.cmakeType = none →
      walk pr (f + 1) (.node t) st = .error .attributeError) ∧
    (∀ (pr : CMakeProject) (f : Nat) (st : WalkState) (t : TargetM),
      t.gnName ∉ st.visited → t.isCmakeTarget = true →
      walk pr (f + 1) (.node t) st =
        .ok { st with visited := t.gnName :: st.visited,
                      binaries := setAdd st.binaries t.gnName }) ∧
    ((resolve unsupFlagPr "//r:R").map (fun st => st.binaries) = .ok ["//x:X"]) := by
  refine ⟨?_, ?_, by decide⟩
  · intro pr f st t hv hc hct
    unfold walk
    rw [if_neg hv, hc]
    simp only [Bool.false_eq_true, if_false]
    rw [hct]
  · intro pr f st t hv hc
    have hb : barrierCond t = true := by
      unfold barrierCond
      rw [hc]
      rfl
    exact walk_barrier_step pr f st t hv hb

/-- C9 witness: the amended theorem applied to a concrete fresh
`rust_library` node. -/
theorem claim_C9_witness :
    walk unsupPr 1 (.node unsupWitnessT) walkEmptySt = .error .attributeError :=
  claim_C9_unknown_kind_crashes.1 unsupPr 0 walkEmptySt unsupWitnessT
    (by decide) (by decide) (by decide)

/-- C10: `write_project` rejects every root whose type is not linkable
before any dependency resolution happens — for any graph whatsoever, a root
of kind source_set, group, copy, action, action_foreach, bundle_data,
create_bundle or the literal kind `unknown` raises the not-linkable
exception immediately, and a root whose kind is outside the table
dereferences `None` — while the four linkable kinds (executable,
loadable_module, shared_library, static_library) pass the gate. -/
theorem claim_C10_write_project_linkable_gate :
    ∀ (pr : CMakeProject) (f : Nat) (t : TargetM),
      t.cmakeType = t.gnType.bind cmake_target_types →
      ((t.gnType ∈ ([some "source_set", some "group", some "copy", some "action",
          some "action_foreach", some "bundle_data", some "create_bundle",
          some "unknown"] : List (Option String)) →
        writeProjectAux pr (f + 1) (.one t) = .error (.notLinkable t.gnName)) ∧
       (t.cmakeType = none →
        writeProjectAux pr (f + 1) (.one t) = .error .attributeError) ∧
       (t.gnType ∈ ([some "executable", some "loadable_module",
          some "shared_library", some "static_library"] : List (Option String)) →
        ∃ ct, t.cmakeType = some ct ∧ ct.is_linkable = true)) := by
  intro pr f t h
  refine ⟨?_, ?_, ?_⟩
  · intro hmem
    have hct : ∃ ct, t.cmakeType = some ct ∧ ct.is_linkable = false := by
      rw [h]
      simp only [List.mem_cons, List.not_mem_nil, or_false] at hmem
      rcases hmem with hk | hk | hk | hk | hk | hk | hk | hk <;>
        (rw [hk]; exact ⟨_, rfl, rfl⟩)
    obtain ⟨ct, hct, hlin⟩ := hct
    unfold writeProjectAux
    rw [hct]
    simp [hlin]
  · intro hnone
    unfold writeProjectAux
    rw [hnone]
  · intro hmem
    rw [h]
    simp only [List.mem_cons, List.not_mem_nil, or_false] at hmem
    rcases hmem with hk | hk | hk | hk <;> (rw [hk]; exact ⟨_, rfl, rfl⟩)

/-- C10 witness: the gate applied to a concrete source_set root over the
empty graph (no resolution is even possible there, so the rejection is
prior to any dependency work). -/
theorem claim_C10_witness :
    writeProjectAux emptyPr 3 (.one sourceSetT) = .error (.notLinkable "//s:SS") :=
  (claim_C10_write_project_linkable_gate emptyPr 2 sourceSetT (by decide)).1 (by decide)
